import Mathlib

/-! # comedi_poll.c (wait4peck): a shallow embedding

The program parses `-s`, `-c`, `-help` and a device file name from its
arguments, opens the comedi device, polls one digital input line every
500000 ns until the sampled value differs from 1, prints a timestamp and
closes the device.

C strings are lists of characters (a token never contains NUL).  Unsigned
32-bit integers are natural numbers reduced modulo `2 ^ 32`.  The collaborators
the program calls (comedi library, clock) are fields of a `World`.
-/

namespace ComediPoll

/-! ## C strings and the library routines the parser calls -/

/-- A C string: the characters before the terminating NUL. -/
abbrev CString := List Char

/-- `strncmp(s, lit, n) == 0` for strings without NUL: the first `n` characters agree. -/
def strncmp_eq (s lit : CString) (n : Nat) : Bool :=
  s.take n == lit.take n

/-- `*s == '-'`: the first character of the token is the flag marker
(for the empty string the first byte is NUL, which is not the marker). -/
def starts_with_dash (s : CString) : Bool :=
  match s with
  | [] => false
  | c :: _ => c == '-'

/-- The `isspace` class of the C locale. -/
def isspace (c : Char) : Bool :=
  c == ' ' || c == '\t' || c == '\n' || c == '\x0b' || c == '\x0c' || c == '\r'

/-- Value of a character as a digit in the given base, when it is one. -/
def digit_value (base : Nat) (c : Char) : Option Nat :=
  let v : Option Nat :=
    if '0'.toNat ≤ c.toNat ∧ c.toNat ≤ '9'.toNat then some (c.toNat - '0'.toNat)
    else if 'a'.toNat ≤ c.toNat ∧ c.toNat ≤ 'f'.toNat then some (c.toNat - 'a'.toNat + 10)
    else if 'A'.toNat ≤ c.toNat ∧ c.toNat ≤ 'F'.toNat then some (c.toNat - 'A'.toNat + 10)
    else none
  match v with
  | some d => if d < base then some d else none
  | none => none

/-- Accumulates the longest run of digits of the given base at the front of the
input, starting from `acc`; the flag tells whether at least one digit was read. -/
def scan_digits (base : Nat) : CString → Nat → Bool → Nat × Bool
  | [], acc, seen => (acc, seen)
  | c :: cs, acc, seen =>
    match digit_value base c with
    | some d => scan_digits base cs (acc * base + d) true
    | none => (acc, seen)

/-- The magnitude read by `%i` after the optional sign: hexadecimal after `0x`
or `0X` followed by a hexadecimal digit, octal after a leading `0`, decimal
otherwise; `none` when no digit can be read (matching failure). -/
def scan_magnitude (s : CString) : Option Nat :=
  match s with
  | '0' :: x :: h :: t =>
    if (x == 'x' || x == 'X') && (digit_value 16 h).isSome then
      some (scan_digits 16 (h :: t) 0 false).1
    else some (scan_digits 8 (x :: h :: t) 0 false).1
  | '0' :: t => some (scan_digits 8 t 0 false).1
  | _ =>
    let r := scan_digits 10 s 0 false
    if r.2 then some r.1 else none

/-- The integer matched by the `%i` conversion of `sscanf` at the start of the
string: leading white space is skipped, then an optional sign, then the
magnitude.  `none` is a matching failure or an empty input. -/
def scan_i (s : CString) : Option Int :=
  let s1 := s.dropWhile isspace
  match s1 with
  | '-' :: t => (scan_magnitude t).map (fun m => - (m : Int))
  | '+' :: t => (scan_magnitude t).map (fun m => (m : Int))
  | _ => (scan_magnitude s1).map (fun m => (m : Int))

/-- The largest `long` (64 bits, as on the Linux systems comedi runs on). -/
def LONG_MAX : Int := 9223372036854775807

/-- The smallest `long`. -/
def LONG_MIN : Int := -9223372036854775808

/-- The `long` that `strtol` returns for a subject sequence of value `v`: the
value itself when it is representable, `LONG_MAX` or `LONG_MIN` when it is not. -/
def strtol_saturate (v : Int) : Int :=
  if LONG_MAX < v then LONG_MAX else if v < LONG_MIN then LONG_MIN else v

/-- Truncation of a `long` to the 32 bits of the `unsigned int` it is stored
in: reduction modulo `2 ^ 32`. -/
def to_uint (v : Int) : Nat := (v % 4294967296).toNat

/-- The call `sscanf(s, "%i", p)` where `*p` holds `old`: the new content of `*p`.
The conversion goes through `strtol`, which saturates at the range of `long`,
and the result is truncated to 32 bits.  On a matching failure nothing is stored. -/
def sscanf_i (s : CString) (old : Nat) : Nat :=
  match scan_i s with
  | some v => to_uint (strtol_saturate v)
  | none => old

/-! ## do_usage and command_line_parse -/

/-- The three outputs of `command_line_parse`, behind its pointer arguments. -/
structure ParseVars where
  device_fname : Option CString
  subdevice : Nat
  channel : Nat
deriving DecidableEq, Repr

/-- How a call of `command_line_parse` ends. -/
inductive ParseOutcome where
  /-- normal return (`return 1`) with the final contents of the outputs -/
  | returned (v : ParseVars)
  /-- the process was terminated by `exit(code)` after writing `err` to stderr -/
  | exited (err : CString) (code : Int)
  /-- `argv[argc]`, the null pointer, was handed to `sscanf` -/
  | fault
deriving DecidableEq, Repr

/-- A run of the parser: its outcome, the number of loop iterations started and
the positions of `argv` that were dereferenced, in order. -/
structure ParseRun where
  outcome : ParseOutcome
  iterations : Nat
  indexed : List Nat
deriving DecidableEq, Repr

/-- Text written to stderr by `do_usage`. -/
def usage_text : CString :=
  "wait4peck usage:\n".toList ++
  "     [-help] [-d str] [-s int] [-c int]       \n\n".toList ++
  "        -help        = show this help message \n".toList ++
  "        -d str       = device file handler    \n".toList ++
  "        -s           = (int) subdevice        \n".toList ++
  "        -c           = (int) channel          \n".toList

/-- `do_usage()`: prints the usage text and calls `exit(-1)`. -/
def do_usage : ParseOutcome := .exited usage_text (-1)

/-- Text written to stderr for an unknown option. -/
def unknown_option_text (tok : CString) : CString :=
  "Unknown option: ".toList ++ tok ++ "\t".toList ++ "Try \x272ac -help\x27\n".toList

/-- Records one more iteration that dereferenced the given positions. -/
def ParseRun.after (idx : List Nat) (r : ParseRun) : ParseRun :=
  ⟨r.outcome, r.iterations + 1, idx ++ r.indexed⟩

/-- The `for (i = ...; i < argc; i++)` loop of `command_line_parse`, entered with
loop variable `i` and `rest = argv[i], ..., argv[argc-1]`. -/
def parse_loop : Nat → List CString → ParseVars → ParseRun
  | _, [], v => ⟨.returned v, 0, []⟩
  | i, tok :: rest, v =>
    if starts_with_dash tok then
      if strncmp_eq tok "-s".toList 2 then
        match rest with
        | [] => ⟨.fault, 1, [i, i + 1]⟩
        | a :: rest1 =>
          (parse_loop (i + 2) rest1 { v with subdevice := sscanf_i a v.subdevice }).after [i, i + 1]
      else if strncmp_eq tok "-c".toList 2 then
        match rest with
        | [] => ⟨.fault, 1, [i, i + 1]⟩
        | a :: rest1 =>
          (parse_loop (i + 2) rest1 { v with channel := sscanf_i a v.channel }).after [i, i + 1]
      else if strncmp_eq tok "-help".toList 5 then
        ⟨do_usage, 1, [i]⟩
      else
        ⟨.exited (unknown_option_text tok) (-1), 1, [i]⟩
    else
      (parse_loop (i + 1) rest { v with device_fname := some tok }).after [i]

/-- `command_line_parse(argc, argv, &device_fname, &subdevice, &channel)` with
`argc = argv.length`; `v` holds the contents of the three outputs on entry. -/
def command_line_parse (argv : List CString) (v : ParseVars) : ParseRun :=
  parse_loop 1 (argv.drop 1) v

/-! ## Formatting: strftime and the printf conversions used by main -/

/-- The character of a decimal digit. -/
def digit_char (d : Nat) : Char := Char.ofNat (48 + d % 10)

/-- Decimal digits of `n`, most significant first; the first argument bounds
the number of digits. -/
def print_nat_aux : Nat → Nat → CString
  | 0, _ => []
  | fuel + 1, n =>
    if n < 10 then [digit_char n]
    else print_nat_aux fuel (n / 10) ++ [digit_char (n % 10)]

/-- The conversion `%d` / `%ld` on a non-negative value: plain decimal digits. -/
def print_nat (n : Nat) : CString := print_nat_aux (n + 1) n

/-- The conversion `%ld` (also `%d`): optional minus sign, then plain decimal digits. -/
def print_int (v : Int) : CString :=
  if v < 0 then '-' :: print_nat v.natAbs else print_nat v.natAbs

/-- A two-digit, zero padded decimal field as strftime writes for `%m`, `%d`,
`%H`, `%M`, `%S` (the conversion `%02d`). -/
def print_02 (n : Nat) : CString :=
  if n < 10 then '0' :: print_nat n else print_nat n

/-- The fields of `struct tm` that the format reads, as `localtime` fills them:
seconds 0..60, minutes 0..59, hours 0..23, day of the month up to 31, months
since January 0..11, years since 1900 as an `int`. -/
structure Tm where
  tm_sec : Fin 61
  tm_min : Fin 60
  tm_hour : Fin 24
  tm_mday : Fin 32
  tm_mon : Fin 12
  tm_year : Int
  year_is_int : -2147483648 ≤ tm_year ∧ tm_year ≤ 2147483647
deriving DecidableEq, Repr

/-- Expansion of a strftime format: `%Y` is the year `tm_year + 1900` in plain
decimal, `%m` the month `tm_mon + 1`, `%d` the day of the month, `%T` is
`%H:%M:%S`; the two-digit fields are zero padded; other characters are copied. -/
def strftime_expand : CString → Tm → CString
  | [], _ => []
  | [c], _ => [c]
  | c :: d :: fmt, tm =>
    if c == '%' then
      if d == 'Y' then print_int (tm.tm_year + 1900) ++ strftime_expand fmt tm
      else if d == 'm' then print_02 (tm.tm_mon + 1) ++ strftime_expand fmt tm
      else if d == 'd' then print_02 tm.tm_mday ++ strftime_expand fmt tm
      else if d == 'T' then
        print_02 tm.tm_hour ++ ':' :: print_02 tm.tm_min ++ ':' :: print_02 tm.tm_sec
          ++ strftime_expand fmt tm
      else if d == 'H' then print_02 tm.tm_hour ++ strftime_expand fmt tm
      else if d == 'M' then print_02 tm.tm_min ++ strftime_expand fmt tm
      else if d == 'S' then print_02 tm.tm_sec ++ strftime_expand fmt tm
      else if d == '%' then '%' :: strftime_expand fmt tm
      else c :: d :: strftime_expand fmt tm
    else c :: strftime_expand (d :: fmt) tm

/-- The call `strftime(buffer, max, fmt, tm)`: the string left in the buffer when the
expansion and its terminating NUL fit in `max` bytes, `none` (contents
indeterminate) otherwise. -/
def strftime (max : Nat) (fmt : CString) (tm : Tm) : Option CString :=
  let s := strftime_expand fmt tm
  if s.length + 1 ≤ max then some s else none

/-! ## The collaborators and main -/

/-- A `comedi_t *`: `none` is the null pointer. -/
abbrev Handle := Option Nat

/-- What one call of `comedi_dio_read` does: its return value and the value it
stores through the `bit` pointer (`none` when it stores nothing). -/
structure DioRead where
  retval : Int
  bit : Option Nat
deriving DecidableEq, Repr

/-- The `struct timeval` filled by `gettimeofday`. -/
structure Timeval where
  tv_sec : Int
  tv_usec : Int
deriving DecidableEq, Repr

/-- Everything main obtains from outside: the indeterminate initial contents of
its two uninitialised locals, the comedi library and the clock.  The outcome of
the `n`-th call of `comedi_dio_read` (counted from 0) may depend on its arguments. -/
structure World where
  subdevice0 : Nat
  channel0 : Nat
  comedi_open : Option CString → Handle
  comedi_dio_read : Nat → Handle → Nat → Nat → DioRead
  gettimeofday : Timeval
  localtime : Int → Tm

/-- Observable actions of the program, in the order they happen. -/
inductive Effect where
  | stderr (text : CString)
  | comedi_open (fname : Option CString)
  | nanosleep (tv_sec tv_nsec : Nat)
  | comedi_dio_read (device : Handle) (subdevice channel : Nat)
  | stdout (text : CString)
  | comedi_close (device : Handle)
deriving DecidableEq, Repr

/-- Input polling rate in nanoseconds. -/
def POLLING_INTERVAL : Nat := 500000

/-- The global `struct timespec rsi = { 0, POLLING_INTERVAL }`. -/
def rsi : Nat × Nat := (0, POLLING_INTERVAL)

/-- States of the poll loop. -/
inductive PollState where
  | POLLING
  | DONE
deriving DecidableEq, Repr

/-- A run of the poll loop: the state reached, the content of `out`, the number
of reads performed and the actions performed. -/
structure PollRun where
  state : PollState
  out : Nat
  reads : Nat
  trace : List Effect
deriving DecidableEq, Repr

/-- Content of `out` after a read that found it holding `out`. -/
def DioRead.store (r : DioRead) (out : Nat) : Nat :=
  match r.bit with
  | some b => b % 4294967296
  | none => out

/-- Records one more completed iteration in front of a run of the loop. -/
def PollRun.after (device : Handle) (subdevice channel : Nat) (r : PollRun) : PollRun :=
  ⟨r.state, r.out, r.reads + 1,
    .nanosleep rsi.1 rsi.2 :: .comedi_dio_read device subdevice channel :: r.trace⟩

/-- The loop `do { nanosleep(&rsi, NULL); comedi_dio_read(device, subdevice, channel, &out); }
while (out == 1);` run for at most `fuel` iterations; `n` is the number of reads
made before, `out` the current content of the sample variable.  When the
iterations are used up the loop is still in state `POLLING`. -/
def poll_loop (w : World) (device : Handle) (subdevice channel : Nat) :
    Nat → Nat → Nat → PollRun
  | 0, _, out => ⟨.POLLING, out, 0, []⟩
  | fuel + 1, n, out =>
    let out1 := (w.comedi_dio_read n device subdevice channel).store out
    if out1 == 1 then
      (poll_loop w device subdevice channel fuel (n + 1) out1).after device subdevice channel
    else
      ⟨.DONE, out1, 1, [.nanosleep rsi.1 rsi.2, .comedi_dio_read device subdevice channel]⟩

/-- The line main writes to stdout: `fprintf(stdout, "%s%ld\n", buffer, (long)tv.tv_usec)`
after `strftime(buffer, 30, "%Y-%m-%d %T.", localtime(&tv.tv_sec))`; `none` when the
buffer was left indeterminate. -/
def timestamp_line (tm : Tm) (tv_usec : Int) : Option CString :=
  (strftime 30 "%Y-%m-%d %T.".toList tm).map (fun buffer => buffer ++ print_int tv_usec ++ ['\n'])

/-- How a run of main ends. -/
inductive Ending where
  /-- `exit(code)` was called -/
  | exited (code : Int)
  /-- main returned `code` -/
  | returned (code : Int)
  /-- undefined behaviour was reached (null argument string, indeterminate buffer) -/
  | fault
  /-- the iteration cap was reached with the loop still polling -/
  | polling
deriving DecidableEq, Repr

/-- A run of main: the actions performed and how it ended. -/
structure Run where
  trace : List Effect
  ending : Ending
deriving DecidableEq, Repr

/-- The function `main(argc, argv)` in world `w`, with the poll loop capped at `fuel` iterations. -/
def main (w : World) (argv : List CString) (fuel : Nat) : Run :=
  match (command_line_parse argv ⟨none, w.subdevice0, w.channel0⟩).outcome with
  | .exited err code => ⟨[.stderr err], .exited code⟩
  | .fault => ⟨[], .fault⟩
  | .returned v =>
    let device := w.comedi_open v.device_fname
    let p := poll_loop w device v.subdevice v.channel fuel 0 1
    match p.state with
    | .POLLING => ⟨.comedi_open v.device_fname :: p.trace, .polling⟩
    | .DONE =>
      let tv := w.gettimeofday
      match timestamp_line (w.localtime tv.tv_sec) tv.tv_usec with
      | none => ⟨.comedi_open v.device_fname :: p.trace, .fault⟩
      | some line =>
        ⟨.comedi_open v.device_fname :: p.trace ++ [.stdout line, .comedi_close device],
          .returned 0⟩

/-- The exit status the parent process observes: the low eight bits of the value. -/
def exit_status (code : Int) : Nat := (code % 256).toNat

/-! ## Test doubles and definitions that follow the specification's words -/

/-- A simulated device: the `n`-th read succeeds and stores the `n`-th sample of
the list, and `dflt` once the list is used up. -/
def simulated_reads (samples : List Nat) (dflt : Nat) : Nat → Handle → Nat → Nat → DioRead :=
  fun n _ _ _ => ⟨1, some (samples.getD n dflt)⟩

/-- A world around a simulated device: the open call returns handle 3, the clock
reads 2024-01-02 03:04:05 and 5000 microseconds, the uninitialised locals hold 7 and 9. -/
def simulated_world (samples : List Nat) (dflt : Nat) : World :=
  { subdevice0 := 7
    channel0 := 9
    comedi_open := fun _ => some 3
    comedi_dio_read := simulated_reads samples dflt
    gettimeofday := ⟨1704164645, 5000⟩
    localtime := fun _ => ⟨5, 4, 3, 2, 0, 124, by decide⟩ }

/-- The world in which every call of `comedi_dio_read` stores what it stores in
`w` but returns the status given by `ret`. -/
def World.with_status (w : World) (ret : Nat → Handle → Nat → Nat → Int) : World :=
  { w with
    comedi_dio_read := fun n device subdevice channel =>
      ⟨ret n device subdevice channel, (w.comedi_dio_read n device subdevice channel).bit⟩ }

/-- The world that differs from `w` in the open call and the read call only. -/
def World.with_device (w : World) (comedi_open : Option CString → Handle)
    (comedi_dio_read : Nat → Handle → Nat → Nat → DioRead) : World :=
  { w with comedi_open := comedi_open, comedi_dio_read := comedi_dio_read }

/-- The action with the handle argument, when it has one, replaced by `h`. -/
def Effect.on_handle (h : Handle) : Effect → Effect
  | .comedi_dio_read _ subdevice channel => .comedi_dio_read h subdevice channel
  | .comedi_close _ => .comedi_close h
  | e => e

/-- Specification side: the character that writes a digit value below 16 in a
literal: `0`..`9`, then `a`..`f`. -/
def hex_char (d : Nat) : Char :=
  if d < 10 then digit_char d else Char.ofNat (87 + d)

/-- Specification side: the text of the digit values `ds`, most significant first. -/
def digits_text (ds : List Nat) : CString := ds.map hex_char

/-- Specification side: the number written in `base` by the digit values `ds`,
most significant first (Mathlib's `Nat.ofDigits` takes the least significant first). -/
def digits_number (base : Nat) (ds : List Nat) : Nat := Nat.ofDigits base ds.reverse

/-- Specification side: every token handled as `-s` or `-c` is followed by at
least one more token.  Tokens are handled from left to right; the token after
one handled as `-s` or `-c` is its value, and after a token that ends the run
(`-help`, unknown option) no token is handled. -/
def flags_have_values : List CString → Bool
  | [] => true
  | tok :: rest =>
    if starts_with_dash tok then
      if strncmp_eq tok "-s".toList 2 || strncmp_eq tok "-c".toList 2 then
        match rest with
        | [] => false
        | _ :: rest1 => flags_have_values rest1
      else true
    else flags_have_values rest

/-- Specification side: the value tokens of the tokens handled as `-s`, from
left to right (tokens are handled as in `flags_have_values`). -/
def subdevice_values : List CString → List CString
  | [] => []
  | tok :: rest =>
    if starts_with_dash tok then
      if strncmp_eq tok "-s".toList 2 then
        match rest with
        | [] => []
        | a :: rest1 => a :: subdevice_values rest1
      else if strncmp_eq tok "-c".toList 2 then
        match rest with
        | [] => []
        | _ :: rest1 => subdevice_values rest1
      else []
    else subdevice_values rest

/-- Specification side: the value tokens of the tokens handled as `-c`, from
left to right. -/
def channel_values : List CString → List CString
  | [] => []
  | tok :: rest =>
    if starts_with_dash tok then
      if strncmp_eq tok "-s".toList 2 then
        match rest with
        | [] => []
        | _ :: rest1 => channel_values rest1
      else if strncmp_eq tok "-c".toList 2 then
        match rest with
        | [] => []
        | a :: rest1 => a :: channel_values rest1
      else []
    else channel_values rest

/-- Specification side: the positional tokens of an argument list (program name
removed), that is the tokens in flag-or-positional position that do not begin
with `-`.  A token right after one handled as `-s` or `-c` is that flag's
value and is in neither position. -/
def positional_tokens : List CString → List CString
  | [] => []
  | tok :: rest =>
    if starts_with_dash tok then
      if strncmp_eq tok "-s".toList 2 || strncmp_eq tok "-c".toList 2 then
        match rest with
        | [] => []
        | _ :: rest1 => positional_tokens rest1
      else positional_tokens rest
    else tok :: positional_tokens rest

/-- The actions of one iteration of the poll loop: the sleep of `rsi`, then the read. -/
def iteration_trace (device : Handle) (subdevice channel : Nat) : List Effect :=
  [.nanosleep 0 500000, .comedi_dio_read device subdevice channel]

/-- Whether an action is a call of `comedi_open`. -/
def Effect.is_open : Effect → Bool
  | .comedi_open _ => true
  | _ => false

/-- Whether an action is a call of `comedi_close`. -/
def Effect.is_close : Effect → Bool
  | .comedi_close _ => true
  | _ => false

/-- Whether an action writes to stdout. -/
def Effect.is_stdout : Effect → Bool
  | .stdout _ => true
  | _ => false

/-- Specification side: the zero padded text `YYYY-MM-DD HH:MM:SS.` for a
four-digit year, written digit by digit. -/
def padded_seconds_text (year month day hour minute second : Nat) : CString :=
  [digit_char (year / 1000 % 10), digit_char (year / 100 % 10), digit_char (year / 10 % 10),
   digit_char (year % 10), '-',
   digit_char (month / 10 % 10), digit_char (month % 10), '-',
   digit_char (day / 10 % 10), digit_char (day % 10), ' ',
   digit_char (hour / 10 % 10), digit_char (hour % 10), ':',
   digit_char (minute / 10 % 10), digit_char (minute % 10), ':',
   digit_char (second / 10 % 10), digit_char (second % 10), '.']

/-- Specification side: the plain decimal representation of a number, from
Mathlib's digit list (least significant first, none for 0): no sign, no
padding, no leading zero, and the single digit `0` for 0. -/
def plain_decimal (n : Nat) : CString :=
  if n = 0 then ['0'] else ((Nat.digits 10 n).reverse).map digit_char

/-- Items of the line pattern: one decimal digit, one or more decimal digits, a literal character. -/
inductive PatItem where
  | digit
  | digits1
  | lit (c : Char)
deriving DecidableEq, Repr

/-- Specification side: anchored match of a string against a list of pattern items.
A run of digits is matched greedily, which is exact when the next item is a
literal that is not a digit. -/
def pattern_match : List PatItem → CString → Bool
  | [], s => s.isEmpty
  | .digit :: ps, s =>
    match s with
    | [] => false
    | c :: cs => c.isDigit && pattern_match ps cs
  | .lit l :: ps, s =>
    match s with
    | [] => false
    | c :: cs => c == l && pattern_match ps cs
  | .digits1 :: ps, s =>
    !(s.takeWhile Char.isDigit).isEmpty && pattern_match ps (s.dropWhile Char.isDigit)

/-- Specification side: the pattern `^\d{4}-\d{2}-\d{2} \d{2}:\d{2}:\d{2}\.\d+\n$`. -/
def timestamp_pattern : List PatItem :=
  [.digit, .digit, .digit, .digit, .lit '-', .digit, .digit, .lit '-', .digit, .digit, .lit ' ',
   .digit, .digit, .lit ':', .digit, .digit, .lit ':', .digit, .digit, .lit '.', .digits1,
   .lit '\n']

/-! ## Lemmas on the parser -/

theorem to_uint_of_lt (n : Nat) (h : n < 4294967296) : to_uint (n : Int) = n := by
  unfold to_uint
  omega

theorem strtol_saturate_of_long (v : Int) (h1 : LONG_MIN ≤ v) (h2 : v ≤ LONG_MAX) :
    strtol_saturate v = v := by
  unfold strtol_saturate
  rw [if_neg (by omega), if_neg (by omega)]

theorem sscanf_i_of_nat (s : CString) (old n : Nat) (h : scan_i s = some (n : Int))
    (hn : n < 4294967296) : sscanf_i s old = n := by
  have hsat : strtol_saturate (n : Int) = n :=
    strtol_saturate_of_long _ (by unfold LONG_MIN; omega) (by unfold LONG_MAX; omega)
  simp only [sscanf_i, h, hsat]
  exact to_uint_of_lt n hn

theorem sscanf_i_of_scan (s : CString) (old : Nat) (v : Int) (h : scan_i s = some v) :
    sscanf_i s old = to_uint (strtol_saturate v) := by
  simp [sscanf_i, h]

theorem sscanf_i_of_fail (s : CString) (old : Nat) (h : scan_i s = none) :
    sscanf_i s old = old := by
  simp [sscanf_i, h]

/-- The outcome of the loop does not depend on the value of the loop variable,
only on the tokens that remain. -/
theorem parse_loop_outcome_index (l : List CString) :
    ∀ (i j : Nat) (v : ParseVars), (parse_loop i l v).outcome = (parse_loop j l v).outcome := by
  generalize hlen : l.length = n
  induction n using Nat.strong_induction_on generalizing l with
  | _ n ih =>
    intro i j v
    subst hlen
    cases l with
    | nil => simp [parse_loop]
    | cons tok rest =>
      cases rest with
      | nil =>
        simp only [parse_loop, ParseRun.after]
        split_ifs <;> rfl
      | cons a rest1 =>
        have h1 := ih _ (by simp only [List.length_cons]; omega) rest1 rfl
        have h2 := ih _ (by simp only [List.length_cons]; omega) (a :: rest1) rfl
        simp only [parse_loop, ParseRun.after]
        split_ifs
        · exact h1 _ _ _
        · exact h1 _ _ _
        · rfl
        · rfl
        · exact h2 _ _ _

/-- Tokens that parse to a normal return on their own leave the loop, when more
tokens follow, at the first of those with the outputs they produced. -/
theorem parse_loop_append (pre : List CString) :
    ∀ (rest : List CString) (i : Nat) (v v1 : ParseVars),
      (parse_loop i pre v).outcome = .returned v1 →
      (parse_loop i (pre ++ rest) v).outcome = (parse_loop (i + pre.length) rest v1).outcome := by
  generalize hlen : pre.length = n
  induction n using Nat.strong_induction_on generalizing pre with
  | _ n ih =>
    intro rest i v v1 h
    subst hlen
    cases pre with
    | nil =>
      simp only [parse_loop] at h
      cases h
      simp
    | cons tok tl =>
      cases tl with
      | nil =>
        simp only [parse_loop, ParseRun.after, do_usage] at h
        simp only [List.cons_append, List.nil_append, List.length_singleton]
        split_ifs at h with h1
        · cases h
          cases rest with
          | nil => simp [parse_loop, ParseRun.after, h1]
          | cons r rs => simp [parse_loop, ParseRun.after, h1]
      | cons a tl1 =>
        simp only [parse_loop, ParseRun.after, do_usage] at h
        simp only [List.cons_append, List.length_cons]
        simp only [parse_loop, ParseRun.after, do_usage]
        split_ifs at h ⊢ with h1 h2 h3 h4
        · have := ih _ (by simp only [List.length_cons]; omega) tl1 rfl rest (i + 2) _ v1 h
          rw [this]
          exact parse_loop_outcome_index _ _ _ _
        · have := ih _ (by simp only [List.length_cons]; omega) tl1 rfl rest (i + 2) _ v1 h
          rw [this]
          exact parse_loop_outcome_index _ _ _ _
        · have := ih _ (by simp only [List.length_cons]; omega) (a :: tl1) rfl rest (i + 1) _ v1 h
          simp only [List.cons_append] at this
          rw [this]
          exact parse_loop_outcome_index _ _ _ _

/-- A token whose first five characters are `-help`, met at the head of the
loop and not handled as `-s` or `-c`, ends the run in do_usage. -/
theorem parse_loop_help (i : Nat) (tok : CString) (post : List CString) (v : ParseVars)
    (hd : starts_with_dash tok = true) (hs : strncmp_eq tok "-s".toList 2 = false)
    (hc : strncmp_eq tok "-c".toList 2 = false) (hh : strncmp_eq tok "-help".toList 5 = true) :
    (parse_loop i (tok :: post) v).outcome = do_usage := by
  cases post <;> simp only [parse_loop, hd, hs, hc, hh, if_true, Bool.false_eq_true, if_false]

/-- A token that begins with `-` and matches none of the three prefixes, met at
the head of the loop, ends the run in the unknown-option exit. -/
theorem parse_loop_unknown (i : Nat) (tok : CString) (post : List CString) (v : ParseVars)
    (hd : starts_with_dash tok = true) (hs : strncmp_eq tok "-s".toList 2 = false)
    (hc : strncmp_eq tok "-c".toList 2 = false) (hh : strncmp_eq tok "-help".toList 5 = false) :
    (parse_loop i (tok :: post) v).outcome = .exited (unknown_option_text tok) (-1) := by
  cases post <;> simp only [parse_loop, hd, hs, hc, hh, if_true, Bool.false_eq_true, if_false]

/-- The parser applied to `prog :: (pre ++ rest)` when `prog :: pre` parses to a
normal return: it goes on with `rest` from the outputs `pre` produced. -/
theorem command_line_parse_append (prog : CString) (pre rest : List CString)
    (v v1 : ParseVars) (h : (command_line_parse (prog :: pre) v).outcome = .returned v1) :
    (command_line_parse (prog :: (pre ++ rest)) v).outcome =
      (command_line_parse (prog :: rest) v1).outcome := by
  simp only [command_line_parse, List.drop_succ_cons, List.drop_zero] at h ⊢
  rw [parse_loop_append pre rest 1 v v1 h]
  exact parse_loop_outcome_index _ _ _ _

theorem main_of_exited (w : World) (argv : List CString) (fuel : Nat) (err : CString)
    (code : Int)
    (h : (command_line_parse argv ⟨none, w.subdevice0, w.channel0⟩).outcome = .exited err code) :
    main w argv fuel = ⟨[.stderr err], .exited code⟩ := by
  simp only [main, h]

/-- Induction along the parser loop: a step consumes one token or two. -/
theorem parse_induction {P : List CString → Prop} (hnil : P [])
    (hstep : ∀ tok rest, P rest → (∀ a rest1, rest = a :: rest1 → P rest1) → P (tok :: rest)) :
    ∀ l, P l := by
  intro l
  generalize hlen : l.length = n
  induction n using Nat.strong_induction_on generalizing l with
  | _ n ih =>
    subst hlen
    cases l with
    | nil => exact hnil
    | cons tok rest =>
      refine hstep tok rest (ih _ (by simp) rest rfl) ?_
      intro a rest1 h
      subst h
      exact ih _ (by simp only [List.length_cons]; omega) rest1 rfl

/-- A token that does not begin with `-` becomes the device file name and the loop goes on. -/
theorem parse_loop_positional (i : Nat) (tok : CString) (rest : List CString) (v : ParseVars)
    (hd : starts_with_dash tok = false) :
    (parse_loop i (tok :: rest) v).outcome =
      (parse_loop (i + 1) rest { v with device_fname := some tok }).outcome := by
  cases rest <;> simp only [parse_loop, hd, ParseRun.after, Bool.false_eq_true, if_false]

/-- A token handled as `-s` takes the next token as its value and the loop goes on after it. -/
theorem parse_loop_flag_s (i : Nat) (tok a : CString) (rest : List CString) (v : ParseVars)
    (hd : starts_with_dash tok = true) (hs : strncmp_eq tok "-s".toList 2 = true) :
    (parse_loop i (tok :: a :: rest) v).outcome =
      (parse_loop (i + 2) rest { v with subdevice := sscanf_i a v.subdevice }).outcome := by
  simp only [parse_loop, hd, hs, ParseRun.after, if_true]

/-- A token handled as `-c` takes the next token as its value and the loop goes on after it. -/
theorem parse_loop_flag_c (i : Nat) (tok a : CString) (rest : List CString) (v : ParseVars)
    (hd : starts_with_dash tok = true) (hs : strncmp_eq tok "-s".toList 2 = false)
    (hc : strncmp_eq tok "-c".toList 2 = true) :
    (parse_loop i (tok :: a :: rest) v).outcome =
      (parse_loop (i + 2) rest { v with channel := sscanf_i a v.channel }).outcome := by
  simp only [parse_loop, hd, hs, hc, ParseRun.after, if_true, Bool.false_eq_true, if_false]

/-- A token handled as `-s` at the end of the arguments: `argv[argc]` is read. -/
theorem parse_loop_flag_s_end (i : Nat) (tok : CString) (v : ParseVars)
    (hd : starts_with_dash tok = true) (hs : strncmp_eq tok "-s".toList 2 = true) :
    (parse_loop i [tok] v).outcome = .fault := by
  simp only [parse_loop, hd, hs, if_true]

/-- A token handled as `-c` at the end of the arguments: `argv[argc]` is read. -/
theorem parse_loop_flag_c_end (i : Nat) (tok : CString) (v : ParseVars)
    (hd : starts_with_dash tok = true) (hs : strncmp_eq tok "-s".toList 2 = false)
    (hc : strncmp_eq tok "-c".toList 2 = true) :
    (parse_loop i [tok] v).outcome = .fault := by
  simp only [parse_loop, hd, hs, hc, if_true, Bool.false_eq_true, if_false]

/-- Whether the loop returns normally depends on the tokens only, not on the
contents of the outputs or the loop variable. -/
theorem parse_loop_returns_indep : ∀ (l : List CString) (i j : Nat) (v v2 r : ParseVars),
    (parse_loop i l v).outcome = .returned r →
    ∃ r2, (parse_loop j l v2).outcome = .returned r2 := by
  intro l
  induction l using parse_induction with
  | hnil => intro i j v v2 r _; exact ⟨v2, by simp [parse_loop]⟩
  | hstep tok rest ih1 ih2 =>
    intro i j v v2 r h
    by_cases hd : starts_with_dash tok = true
    · by_cases hs : strncmp_eq tok "-s".toList 2 = true
      · cases rest with
        | nil =>
          rw [parse_loop_flag_s_end i tok v hd hs] at h
          cases h
        | cons a rest1 =>
          rw [parse_loop_flag_s i tok a rest1 v hd hs] at h
          rw [parse_loop_flag_s j tok a rest1 v2 hd hs]
          exact ih2 a rest1 rfl _ _ _ _ _ h
      · simp only [Bool.not_eq_true] at hs
        by_cases hc : strncmp_eq tok "-c".toList 2 = true
        · cases rest with
          | nil =>
            rw [parse_loop_flag_c_end i tok v hd hs hc] at h
            cases h
          | cons a rest1 =>
            rw [parse_loop_flag_c i tok a rest1 v hd hs hc] at h
            rw [parse_loop_flag_c j tok a rest1 v2 hd hs hc]
            exact ih2 a rest1 rfl _ _ _ _ _ h
        · simp only [Bool.not_eq_true] at hc
          by_cases hh : strncmp_eq tok "-help".toList 5 = true
          · rw [parse_loop_help i tok rest v hd hs hc hh] at h
            cases h
          · simp only [Bool.not_eq_true] at hh
            rw [parse_loop_unknown i tok rest v hd hs hc hh] at h
            cases h
    · simp only [Bool.not_eq_true] at hd
      rw [parse_loop_positional i tok rest v hd] at h
      rw [parse_loop_positional j tok rest v2 hd]
      exact ih1 _ _ _ _ _ h

theorem positional_tokens_positional (tok : CString) (rest : List CString)
    (hd : starts_with_dash tok = false) :
    positional_tokens (tok :: rest) = tok :: positional_tokens rest := by
  cases rest <;> simp only [positional_tokens, hd, Bool.false_eq_true, if_false]

/-- On a normal return the device file name is the last positional token, or
the entry value when there is none. -/
theorem parse_loop_device : ∀ (l : List CString) (i : Nat) (v r : ParseVars),
    (parse_loop i l v).outcome = .returned r →
    r.device_fname = (positional_tokens l).getLast?.or v.device_fname := by
  intro l
  induction l using parse_induction with
  | hnil =>
    intro i v r h
    simp only [parse_loop] at h
    cases h
    simp [positional_tokens]
  | hstep tok rest ih1 ih2 =>
    intro i v r h
    by_cases hd : starts_with_dash tok = true
    · by_cases hs : strncmp_eq tok "-s".toList 2 = true
      · cases rest with
        | nil =>
          rw [parse_loop_flag_s_end i tok v hd hs] at h
          cases h
        | cons a rest1 =>
          rw [parse_loop_flag_s i tok a rest1 v hd hs] at h
          have := ih2 a rest1 rfl _ _ _ h
          simp only [positional_tokens, hd, hs, if_true, Bool.true_or]
          exact this
      · simp only [Bool.not_eq_true] at hs
        by_cases hc : strncmp_eq tok "-c".toList 2 = true
        · cases rest with
          | nil =>
            rw [parse_loop_flag_c_end i tok v hd hs hc] at h
            cases h
          | cons a rest1 =>
            rw [parse_loop_flag_c i tok a rest1 v hd hs hc] at h
            have := ih2 a rest1 rfl _ _ _ h
            simp only [positional_tokens, hd, hc, if_true, Bool.or_true]
            exact this
        · simp only [Bool.not_eq_true] at hc
          by_cases hh : strncmp_eq tok "-help".toList 5 = true
          · rw [parse_loop_help i tok rest v hd hs hc hh] at h
            cases h
          · simp only [Bool.not_eq_true] at hh
            rw [parse_loop_unknown i tok rest v hd hs hc hh] at h
            cases h
    · simp only [Bool.not_eq_true] at hd
      rw [parse_loop_positional i tok rest v hd] at h
      have := ih1 _ _ _ h
      rw [this, positional_tokens_positional tok rest hd, List.getLast?_cons]
      cases (positional_tokens rest).getLast? <;> simp

/-! ## Lemmas on formatting -/

theorem digit_char_isDigit (d : Nat) : (digit_char d).isDigit = true := by
  unfold digit_char
  have h : d % 10 < 10 := Nat.mod_lt _ (by decide)
  generalize d % 10 = r at h
  interval_cases r <;> decide

theorem digit_char_ne_zero (d : Nat) (h0 : 0 < d) (h : d < 10) : digit_char d ≠ '0' := by
  interval_cases d <;> decide

theorem print_nat_aux_fuel (f1 : Nat) :
    ∀ (f2 n : Nat), n < f1 → n < f2 → print_nat_aux f1 n = print_nat_aux f2 n := by
  induction f1 with
  | zero => intro f2 n h; omega
  | succ k ih =>
    intro f2 n h1 h2
    obtain ⟨m, rfl⟩ : ∃ m, f2 = m + 1 := ⟨f2 - 1, by omega⟩
    simp only [print_nat_aux]
    split_ifs with h
    · rfl
    · rw [ih m (n / 10) (by omega) (by omega)]

theorem print_nat_unfold (n : Nat) :
    print_nat n = if n < 10 then [digit_char n] else print_nat (n / 10) ++ [digit_char (n % 10)] := by
  unfold print_nat
  by_cases h : n < 10
  · simp only [print_nat_aux, if_pos h]
  · rw [if_neg h]
    have hstep : print_nat_aux (n + 1) n = print_nat_aux n (n / 10) ++ [digit_char (n % 10)] := by
      simp only [print_nat_aux, if_neg h]
    rw [hstep, print_nat_aux_fuel n (n / 10 + 1) (n / 10) (by omega) (by omega)]

theorem print_nat_length_le (k : Nat) :
    ∀ n, n < 10 ^ (k + 1) → (print_nat n).length ≤ k + 1 := by
  induction k with
  | zero =>
    intro n h
    rw [print_nat_unfold, if_pos (by simpa using h)]
    simp
  | succ k ih =>
    intro n h
    rw [print_nat_unfold]
    split_ifs with h10
    · simp
    · have := ih (n / 10) (by rw [Nat.div_lt_iff_lt_mul (by decide)]; rw [pow_succ] at h; exact h)
      simp only [List.length_append, List.length_singleton]
      omega

theorem print_nat_ne_nil (n : Nat) : print_nat n ≠ [] := by
  rw [print_nat_unfold]
  split_ifs <;> simp

theorem print_nat_all_digits (n : Nat) : ∀ c ∈ print_nat n, c.isDigit = true := by
  induction n using Nat.strong_induction_on with
  | _ n ih =>
    rw [print_nat_unfold]
    split_ifs with h
    · intro c hc
      simp only [List.mem_singleton] at hc
      subst hc
      exact digit_char_isDigit n
    · intro c hc
      simp only [List.mem_append, List.mem_singleton] at hc
      rcases hc with hc | hc
      · exact ih (n / 10) (by omega) c hc
      · subst hc
        exact digit_char_isDigit _

theorem print_nat_head_ne_zero (n : Nat) (h0 : 0 < n) : (print_nat n).head? ≠ some '0' := by
  induction n using Nat.strong_induction_on with
  | _ n ih =>
    rw [print_nat_unfold]
    split_ifs with h
    · simpa using digit_char_ne_zero n h0 h
    · have hrec := ih (n / 10) (by omega) (by omega)
      have hne := print_nat_ne_nil (n / 10)
      cases hp : print_nat (n / 10) with
      | nil => exact absurd hp hne
      | cons c cs => rw [hp] at hrec; simpa using hrec

theorem print_nat_eq_digits (n : Nat) (h0 : 0 < n) :
    print_nat n = ((Nat.digits 10 n).reverse).map digit_char := by
  induction n using Nat.strong_induction_on with
  | _ n ih =>
    rw [print_nat_unfold, Nat.digits_def' (by decide) h0]
    split_ifs with h
    · have : n / 10 = 0 := by omega
      have h2 : n % 10 = n := by omega
      simp [this, h2]
    · rw [ih (n / 10) (by omega) (by omega)]
      simp

theorem print_02_eq (n : Nat) (h : n < 100) :
    print_02 n = [digit_char (n / 10), digit_char (n % 10)] := by
  unfold print_02
  split_ifs with h10
  · rw [print_nat_unfold, if_pos h10]
    have : n / 10 = 0 := by omega
    have h2 : n % 10 = n := by omega
    rw [this, h2]
    rfl
  · rw [print_nat_unfold, if_neg h10, print_nat_unfold, if_pos (by omega)]
    rfl

theorem strftime_expand_format (tm : Tm) :
    strftime_expand "%Y-%m-%d %T.".toList tm =
      print_int (tm.tm_year + 1900) ++ '-' :: print_02 (tm.tm_mon + 1) ++ '-' ::
        print_02 tm.tm_mday ++ ' ' :: print_02 tm.tm_hour ++ ':' :: print_02 tm.tm_min ++ ':' ::
        print_02 tm.tm_sec ++ ['.'] := by
  simp [strftime_expand]
/-! ## C1: the three units in any order -/

/-- C1. For a subdevice value `N` and a channel value `M` (values of the 32-bit
unsigned outputs) given by tokens that `%i` reads as `N` and `M`, and a device
token that does not begin with `-`, every ordering of the units `-s N`, `-c M`,
device after the program name makes command_line_parse return normally with
subdevice `N`, channel `M` and that device token, whatever the outputs held on
entry; so all six orderings give the same result. -/
theorem command_line_parse_any_order (prog sN sM dev : CString) (N M : Nat) (v0 : ParseVars)
    (hN : scan_i sN = some (N : Int)) (hM : scan_i sM = some (M : Int))
    (hN32 : N < 4294967296) (hM32 : M < 4294967296)
    (hdev : starts_with_dash dev = false)
    (units : List (List CString))
    (hperm : units.Perm [["-s".toList, sN], ["-c".toList, sM], [dev]]) :
    (command_line_parse (prog :: units.flatten) v0).outcome = .returned ⟨some dev, N, M⟩ := by
  have hs : ∀ old, sscanf_i sN old = N := fun old => by
    exact sscanf_i_of_nat sN old N hN hN32
  have hc : ∀ old, sscanf_i sM old = M := fun old => by
    exact sscanf_i_of_nat sM old M hM hM32
  have h6 := List.mem_permutations.2 hperm
  simp only [List.permutations, List.permutationsAux2, List.permutationsAux_cons,
    List.permutationsAux_nil, List.foldr, id, List.mem_cons, List.append_nil, List.nil_append,
    List.cons_append, List.mem_nil_iff, List.not_mem_nil, or_false, List.mem_append] at h6
  have e1 : starts_with_dash ['-', 's'] = true := by decide
  have e2 : strncmp_eq ['-', 's'] ['-', 's'] 2 = true := by decide
  have e3 : starts_with_dash ['-', 'c'] = true := by decide
  have e4 : strncmp_eq ['-', 'c'] ['-', 's'] 2 = false := by decide
  have e5 : strncmp_eq ['-', 'c'] ['-', 'c'] 2 = true := by decide
  rcases h6 with h | h | h | h | h | h <;> subst h <;>
    simp [command_line_parse, parse_loop, ParseRun.after, e1, e2, e3, e4, e5, hdev, hs, hc]

/-- C1 witness: `-c 2 /dev/comedi0 -s 0`, one of the six orderings. -/
theorem command_line_parse_any_order_witness :
    (command_line_parse
      ("comedi_poll".toList ::
        [["-c".toList, "2".toList], ["/dev/comedi0".toList], ["-s".toList, "0".toList]].flatten)
      ⟨none, 7, 9⟩).outcome
      = .returned ⟨some "/dev/comedi0".toList, 0, 2⟩ :=
  command_line_parse_any_order "comedi_poll".toList "0".toList "2".toList "/dev/comedi0".toList
    0 2 ⟨none, 7, 9⟩ (by decide) (by decide) (by decide) (by decide) (by decide) _
    (by decide)

/-! ## C2, C3: the poll loop -/

theorem poll_loop_low_after (w : World) (device : Handle) (subdevice channel : Nat) (k : Nat) :
    ∀ (fuel n out : Nat),
      (∀ i, i < k → (w.comedi_dio_read (n + i) device subdevice channel).bit = some 1) →
      (w.comedi_dio_read (n + k) device subdevice channel).bit = some 0 →
      k + 1 ≤ fuel →
      poll_loop w device subdevice channel fuel n out =
        ⟨.DONE, 0, k + 1,
          (List.replicate (k + 1) (iteration_trace device subdevice channel)).flatten⟩ := by
  induction k with
  | zero =>
    intro fuel n out _ hlow hfuel
    obtain ⟨f, rfl⟩ : ∃ f, fuel = f + 1 := ⟨fuel - 1, by omega⟩
    simp only [Nat.add_zero] at hlow
    simp [poll_loop, DioRead.store, hlow, iteration_trace, rsi, POLLING_INTERVAL]
  | succ k ih =>
    intro fuel n out hhigh hlow hfuel
    obtain ⟨f, rfl⟩ : ∃ f, fuel = f + 1 := ⟨fuel - 1, by omega⟩
    have h0 := hhigh 0 (by omega)
    simp only [Nat.add_zero] at h0
    have hrec := ih f (n + 1) 1
      (fun i hi => by have := hhigh (i + 1) (by omega); rwa [show n + 1 + i = n + (i + 1) by omega])
      (by rwa [show n + 1 + k = n + (k + 1) by omega]) (by omega)
    simp only [poll_loop, DioRead.store, h0]
    simp only [Nat.one_mod, beq_self_eq_true, if_true, hrec, PollRun.after]
    simp [List.replicate_succ, iteration_trace, rsi, POLLING_INTERVAL]

theorem poll_loop_all_high (w : World) (device : Handle) (subdevice channel : Nat) (fuel : Nat) :
    ∀ (n : Nat),
      (∀ i, i < fuel → (w.comedi_dio_read (n + i) device subdevice channel).bit = some 1) →
      poll_loop w device subdevice channel fuel n 1 =
        ⟨.POLLING, 1, fuel,
          (List.replicate fuel (iteration_trace device subdevice channel)).flatten⟩ := by
  induction fuel with
  | zero => intro n _; simp [poll_loop]
  | succ f ih =>
    intro n hhigh
    have h0 := hhigh 0 (by omega)
    simp only [Nat.add_zero] at h0
    have hrec := ih (n + 1)
      (fun i hi => by have := hhigh (i + 1) (by omega); rwa [show n + 1 + i = n + (i + 1) by omega])
    simp only [poll_loop, DioRead.store, h0]
    simp only [Nat.one_mod, beq_self_eq_true, if_true, hrec, PollRun.after]
    simp [List.replicate_succ, iteration_trace, rsi, POLLING_INTERVAL]

/-- C2. When the first `k` reads store 1 and read number `k + 1` stores 0
(whatever later reads would store), the poll loop as main enters it (no read
made yet, `out = 1`), given at least `k + 1` iterations, reaches DONE after
exactly `k + 1` reads; its actions are exactly `k + 1` pairs of one 500000 ns
sleep followed by one read, so no later value is consumed.  For `k = 3` that is
4 reads, for `k = 0` one sleep and one read. -/
theorem poll_loop_exits_at_first_low (w : World) (device : Handle) (subdevice channel : Nat)
    (k fuel : Nat)
    (hhigh : ∀ i, i < k → (w.comedi_dio_read i device subdevice channel).bit = some 1)
    (hlow : (w.comedi_dio_read k device subdevice channel).bit = some 0)
    (hfuel : k + 1 ≤ fuel) :
    poll_loop w device subdevice channel fuel 0 1 =
      ⟨.DONE, 0, k + 1,
        (List.replicate (k + 1)
          [Effect.nanosleep 0 500000, Effect.comedi_dio_read device subdevice channel]).flatten⟩ :=
  poll_loop_low_after w device subdevice channel k fuel 0 1
    (fun i hi => by simpa using hhigh i hi) (by simpa using hlow) hfuel

/-- C2 witness: the simulated sequence 1, 1, 1, 0 (followed by 1s) gives exactly 4 reads. -/
theorem poll_loop_exits_at_first_low_witness :
    poll_loop (simulated_world [1, 1, 1, 0] 1) (some 3) 0 2 10 0 1 =
      ⟨.DONE, 0, 4,
        (List.replicate 4
          [Effect.nanosleep 0 500000, Effect.comedi_dio_read (some 3) 0 2]).flatten⟩ :=
  poll_loop_exits_at_first_low (simulated_world [1, 1, 1, 0] 1) (some 3) 0 2 3 10
    (by decide) (by decide) (by decide)

/-- C3 counterexample: a simulated device whose samples are all 2 (never 0)
ends the loop at the first read; main prints a timestamp and returns. -/
theorem poll_loop_nonzero_sample_counterexample :
    (∀ n device subdevice channel,
      ((simulated_world [] 2).comedi_dio_read n device subdevice channel).bit = some 2) ∧
    (poll_loop (simulated_world [] 2) (some 3) 7 9 1 0 1).state = .DONE ∧
    main (simulated_world [] 2) ["comedi_poll".toList, "/dev/comedi0".toList] 1 =
      ⟨[.comedi_open (some "/dev/comedi0".toList), .nanosleep 0 500000,
        .comedi_dio_read (some 3) 7 9, .stdout "2024-01-02 03:04:05.5000\n".toList,
        .comedi_close (some 3)], .returned 0⟩ := by
  refine ⟨fun n device subdevice channel => rfl, by decide, by decide⟩

/-- C3, amended. When each of the first `n` reads stores the sample value 1,
the poll loop is still in state POLLING after `n` iterations, having made `n`
reads; main, with the loop capped at `n` iterations, has not returned and has
written nothing to stdout, and when its arguments parse it is still polling. -/
theorem poll_loop_stays_polling (w : World) (argv : List CString) (n : Nat)
    (device : Handle) (subdevice channel : Nat)
    (hhigh : ∀ i, i < n → ∀ d s c, (w.comedi_dio_read i d s c).bit = some 1) :
    (poll_loop w device subdevice channel n 0 1).state = .POLLING ∧
    (poll_loop w device subdevice channel n 0 1).reads = n ∧
    (∀ line, Effect.stdout line ∉ (main w argv n).trace) ∧
    (∀ c, (main w argv n).ending ≠ .returned c) ∧
    (∀ v, (command_line_parse argv ⟨none, w.subdevice0, w.channel0⟩).outcome = .returned v →
      (main w argv n).ending = .polling) := by
  have hp : ∀ d s c, poll_loop w d s c n 0 1 =
      ⟨.POLLING, 1, n, (List.replicate n (iteration_trace d s c)).flatten⟩ := fun d s c =>
    poll_loop_all_high w d s c n 0 (fun i hi => by simpa using hhigh i hi d s c)
  have hmain : ∀ v, (command_line_parse argv ⟨none, w.subdevice0, w.channel0⟩).outcome
        = .returned v →
      main w argv n = ⟨.comedi_open v.device_fname ::
        (List.replicate n (iteration_trace (w.comedi_open v.device_fname)
          v.subdevice v.channel)).flatten, .polling⟩ := fun v hv => by
    simp only [main, hv, hp]
  refine ⟨by rw [hp], by rw [hp], ?_, ?_, ?_⟩
  · intro line
    cases hout : (command_line_parse argv ⟨none, w.subdevice0, w.channel0⟩).outcome with
    | returned v =>
      rw [hmain v hout]
      simp [iteration_trace, List.mem_flatten, List.mem_replicate]
    | exited err code => simp [main, hout]
    | fault => simp [main, hout]
  · intro c
    cases hout : (command_line_parse argv ⟨none, w.subdevice0, w.channel0⟩).outcome with
    | returned v => rw [hmain v hout]; simp
    | exited err code => simp [main, hout]
    | fault => simp [main, hout]
  · intro v hv
    rw [hmain v hv]

/-- C3 witness: a simulated device that always reads 1, capped at 5 iterations. -/
theorem poll_loop_stays_polling_witness :
    (poll_loop (simulated_world [] 1) (some 3) 0 2 5 0 1).state = .POLLING ∧
    (poll_loop (simulated_world [] 1) (some 3) 0 2 5 0 1).reads = 5 ∧
    (∀ line, Effect.stdout line ∉
      (main (simulated_world [] 1) ["comedi_poll".toList, "/dev/comedi0".toList] 5).trace) ∧
    (∀ c, (main (simulated_world [] 1) ["comedi_poll".toList, "/dev/comedi0".toList] 5).ending
      ≠ .returned c) ∧
    (∀ v, (command_line_parse ["comedi_poll".toList, "/dev/comedi0".toList]
        ⟨none, (simulated_world [] 1).subdevice0, (simulated_world [] 1).channel0⟩).outcome
          = .returned v →
      (main (simulated_world [] 1) ["comedi_poll".toList, "/dev/comedi0".toList] 5).ending
        = .polling) :=
  poll_loop_stays_polling (simulated_world [] 1) ["comedi_poll".toList, "/dev/comedi0".toList] 5
    (some 3) 0 2 (fun _ _ _ _ _ => rfl)

/-! ## C4, C5: usage errors -/

/-- C4 counterexample: in `-s -help /dev/comedi0` the token `-help` is taken as
the value of `-s`; the device is opened and polled and main returns 0.  In
`-x -help` the unknown option ends the run first and the usage text is not printed. -/
theorem help_anywhere_counterexample :
    "-help".toList ∈
        ["comedi_poll".toList, "-s".toList, "-help".toList, "/dev/comedi0".toList].tail ∧
    main (simulated_world [0] 0)
        ["comedi_poll".toList, "-s".toList, "-help".toList, "/dev/comedi0".toList] 1 =
      ⟨[.comedi_open (some "/dev/comedi0".toList), .nanosleep 0 500000,
        .comedi_dio_read (some 3) 7 9, .stdout "2024-01-02 03:04:05.5000\n".toList,
        .comedi_close (some 3)], .returned 0⟩ ∧
    main (simulated_world [0] 0) ["comedi_poll".toList, "-x".toList, "-help".toList] 1 =
      ⟨[.stderr "Unknown option: -x\tTry \x272ac -help\x27\n".toList], .exited (-1)⟩ := by
  refine ⟨by decide, by decide, by decide⟩

/-- C4, amended. When the tokens before a `-help` token parse on their own to a
normal return (so the parser meets `-help` in flag position), main writes the
usage text to stderr and exits with the value -1, status 255; it performs no
other action: no open, no sleep, no read. -/
theorem help_in_flag_position (w : World) (prog : CString) (pre post : List CString)
    (v1 : ParseVars) (fuel : Nat)
    (hpre : (command_line_parse (prog :: pre) ⟨none, w.subdevice0, w.channel0⟩).outcome
      = .returned v1) :
    main w (prog :: (pre ++ "-help".toList :: post)) fuel
      = ⟨[.stderr usage_text], .exited (-1)⟩ ∧
    exit_status (-1) = 255 := by
  refine ⟨?_, by decide⟩
  apply main_of_exited
  rw [command_line_parse_append prog pre _ _ v1 hpre]
  exact parse_loop_help 1 _ post v1 (by decide) (by decide) (by decide) (by decide)

/-- C4 witness: `-c 2 -help /dev/comedi0`. -/
theorem help_in_flag_position_witness :
    main (simulated_world [0] 0)
        ("comedi_poll".toList ::
          (["-c".toList, "2".toList] ++ "-help".toList :: ["/dev/comedi0".toList])) 1
      = ⟨[.stderr usage_text], .exited (-1)⟩ ∧
    exit_status (-1) = 255 :=
  help_in_flag_position (simulated_world [0] 0) "comedi_poll".toList
    ["-c".toList, "2".toList] ["/dev/comedi0".toList] ⟨none, 7, 2⟩ 1 (by decide)

/-- C5 counterexample: in `-s -x /dev/comedi0` the token `-x` is taken as the
value of `-s`, and in `-sx 1 /dev/comedi0` the token `-sx`, which is none of
`-s`, `-c`, `-help`, is handled as `-s`; both runs open the device, poll it and
return 0 with nothing on stderr. -/
theorem unknown_flag_anywhere_counterexample :
    main (simulated_world [0] 0)
        ["comedi_poll".toList, "-s".toList, "-x".toList, "/dev/comedi0".toList] 1 =
      ⟨[.comedi_open (some "/dev/comedi0".toList), .nanosleep 0 500000,
        .comedi_dio_read (some 3) 7 9, .stdout "2024-01-02 03:04:05.5000\n".toList,
        .comedi_close (some 3)], .returned 0⟩ ∧
    main (simulated_world [0] 0)
        ["comedi_poll".toList, "-sx".toList, "1".toList, "/dev/comedi0".toList] 1 =
      ⟨[.comedi_open (some "/dev/comedi0".toList), .nanosleep 0 500000,
        .comedi_dio_read (some 3) 1 9, .stdout "2024-01-02 03:04:05.5000\n".toList,
        .comedi_close (some 3)], .returned 0⟩ := by
  refine ⟨by decide, by decide⟩

/-- C5, amended. When the tokens before it parse on their own to a normal
return (so the parser meets the token in flag position), a token that begins
with `-` and whose first characters are none of `-s`, `-c`, `-help` makes main
write `Unknown option: ` followed by the token and a hint to stderr and exit
with the value -1, status 255; it performs no other action: no open, no sleep,
no read. -/
theorem unknown_flag_in_flag_position (w : World) (prog tok : CString)
    (pre post : List CString) (v1 : ParseVars) (fuel : Nat)
    (hpre : (command_line_parse (prog :: pre) ⟨none, w.subdevice0, w.channel0⟩).outcome
      = .returned v1)
    (hd : starts_with_dash tok = true) (hs : strncmp_eq tok "-s".toList 2 = false)
    (hc : strncmp_eq tok "-c".toList 2 = false)
    (hh : strncmp_eq tok "-help".toList 5 = false) :
    main w (prog :: (pre ++ tok :: post)) fuel
      = ⟨[.stderr ("Unknown option: ".toList ++ tok ++ "\tTry \x272ac -help\x27\n".toList)],
          .exited (-1)⟩ ∧
    tok <:+: "Unknown option: ".toList ++ tok ++ "\tTry \x272ac -help\x27\n".toList ∧
    exit_status (-1) = 255 := by
  refine ⟨?_, ⟨"Unknown option: ".toList, "\tTry \x272ac -help\x27\n".toList, rfl⟩, by decide⟩
  have h : (command_line_parse (prog :: (pre ++ tok :: post))
      ⟨none, w.subdevice0, w.channel0⟩).outcome = .exited (unknown_option_text tok) (-1) := by
    rw [command_line_parse_append prog pre _ _ v1 hpre]
    exact parse_loop_unknown 1 tok post v1 hd hs hc hh
  rw [main_of_exited w _ fuel _ _ h]
  simp [unknown_option_text]

/-- C5 witness: `/dev/comedi0 -x -s 1`. -/
theorem unknown_flag_in_flag_position_witness :
    main (simulated_world [0] 0)
        ("comedi_poll".toList ::
          (["/dev/comedi0".toList] ++ "-x".toList :: ["-s".toList, "1".toList])) 1
      = ⟨[.stderr ("Unknown option: ".toList ++ "-x".toList
            ++ "\tTry \x272ac -help\x27\n".toList)], .exited (-1)⟩ ∧
    "-x".toList <:+:
      "Unknown option: ".toList ++ "-x".toList ++ "\tTry \x272ac -help\x27\n".toList ∧
    exit_status (-1) = 255 :=
  unknown_flag_in_flag_position (simulated_world [0] 0) "comedi_poll".toList "-x".toList
    ["/dev/comedi0".toList] ["-s".toList, "1".toList] ⟨some "/dev/comedi0".toList, 7, 9⟩ 1
    (by decide) (by decide) (by decide) (by decide) (by decide)

/-! ## Lemmas on main -/

theorem poll_loop_trace (w : World) (device : Handle) (subdevice channel : Nat) (fuel : Nat) :
    ∀ (n out : Nat), (poll_loop w device subdevice channel fuel n out).trace =
      (List.replicate (poll_loop w device subdevice channel fuel n out).reads
        (iteration_trace device subdevice channel)).flatten := by
  induction fuel with
  | zero => intro n out; simp [poll_loop]
  | succ f ih =>
    intro n out
    simp only [poll_loop]
    split_ifs with h
    · simp only [PollRun.after, ih, List.replicate_succ, List.flatten_cons, iteration_trace, rsi,
        POLLING_INTERVAL, List.cons_append, List.nil_append]
    · simp [iteration_trace, rsi, POLLING_INTERVAL]

theorem print_int_no_newline (v : Int) : ∀ c ∈ print_int v, c ≠ '\n' := by
  intro c hc
  unfold print_int at hc
  split_ifs at hc
  · simp only [List.mem_cons] at hc
    rcases hc with hc | hc
    · subst hc; decide
    · intro h; subst h; exact absurd (print_nat_all_digits _ _ hc) (by decide)
  · intro h; subst h; exact absurd (print_nat_all_digits _ _ hc) (by decide)

theorem print_int_length_le (v : Int) (h1 : -10000000000 < v) (h2 : v < 10000000000) :
    (print_int v).length ≤ 11 := by
  have hn : (print_nat v.natAbs).length ≤ 10 := print_nat_length_le 9 _ (by omega)
  unfold print_int
  split_ifs
  · simp only [List.length_cons]; omega
  · omega

theorem print_02_fin_eq {k : Nat} (n : Fin k) (hk : k ≤ 100) :
    print_02 n = [digit_char (n / 10), digit_char (n % 10)] :=
  print_02_eq n (by have := n.isLt; omega)

/-- The buffer of 30 bytes is large enough for every local time: strftime
leaves in it a string without newline. -/
theorem strftime_total (tm : Tm) :
    ∃ s, strftime 30 "%Y-%m-%d %T.".toList tm = some s ∧ s.count '\n' = 0 := by
  have hy := print_int_length_le (tm.tm_year + 1900)
    (by have := tm.year_is_int; omega) (by have := tm.year_is_int; omega)
  have hyn := print_int_no_newline (tm.tm_year + 1900)
  have e1 := print_02_eq (tm.tm_mon + 1) (by have := tm.tm_mon.isLt; omega)
  have e2 := print_02_fin_eq tm.tm_mday (by decide)
  have e3 := print_02_fin_eq tm.tm_hour (by decide)
  have e4 := print_02_fin_eq tm.tm_min (by decide)
  have e5 := print_02_fin_eq tm.tm_sec (by decide)
  have hd : ∀ d, (digit_char d == '\n') = false := fun d => by
    have h1 := digit_char_isDigit d
    have h2 : digit_char d ≠ '\n' := fun h => by
      rw [h] at h1
      exact absurd h1 (by decide)
    exact beq_eq_false_iff_ne.2 h2
  have hc1 : (print_int (tm.tm_year + 1900)).count '\n' = 0 :=
    List.count_eq_zero.2 (fun h => hyn _ h rfl)
  refine ⟨strftime_expand "%Y-%m-%d %T.".toList tm, ?_, ?_⟩
  · unfold strftime
    rw [if_pos]
    rw [strftime_expand_format, e1, e2, e3, e4, e5]
    simp only [List.length_append, List.length_cons, List.length_nil]
    omega
  · rw [strftime_expand_format, e1, e2, e3, e4, e5]
    simp only [List.count_append, List.count_cons, List.count_nil, hc1, hd]
    simp

/-- The line main prints exists for every local time and ends with its only newline. -/
theorem timestamp_line_total (tm : Tm) (u : Int) :
    ∃ line, timestamp_line tm u = some line ∧ line.count '\n' = 1 ∧
      line.getLast? = some '\n' := by
  obtain ⟨s, hs, hsn⟩ := strftime_total tm
  have hc2 : (print_int u).count '\n' = 0 :=
    List.count_eq_zero.2 (fun h => print_int_no_newline u _ h rfl)
  refine ⟨s ++ print_int u ++ ['\n'], by simp only [timestamp_line, hs, Option.map], ?_, ?_⟩
  · simp only [List.count_append, hsn, hc2]
    decide
  · simp

theorem main_returned (w : World) (argv : List CString) (fuel : Nat) (c : Int)
    (h : (main w argv fuel).ending = .returned c) :
    c = 0 ∧ ∃ v line,
      (command_line_parse argv ⟨none, w.subdevice0, w.channel0⟩).outcome = .returned v ∧
      timestamp_line (w.localtime w.gettimeofday.tv_sec) w.gettimeofday.tv_usec = some line ∧
      line.count '\n' = 1 ∧ line.getLast? = some '\n' ∧
      (poll_loop w (w.comedi_open v.device_fname) v.subdevice v.channel fuel 0 1).state
        = .DONE ∧
      (main w argv fuel).trace = .comedi_open v.device_fname ::
        (List.replicate
          (poll_loop w (w.comedi_open v.device_fname) v.subdevice v.channel fuel 0 1).reads
          (iteration_trace (w.comedi_open v.device_fname) v.subdevice v.channel)).flatten ++
        [.stdout line, .comedi_close (w.comedi_open v.device_fname)] := by
  obtain ⟨line, hline, hcount, hlast⟩ :=
    timestamp_line_total (w.localtime w.gettimeofday.tv_sec) w.gettimeofday.tv_usec
  cases hout : (command_line_parse argv ⟨none, w.subdevice0, w.channel0⟩).outcome with
  | exited err code => simp [main, hout] at h
  | fault => simp [main, hout] at h
  | returned v =>
    cases hst : (poll_loop w (w.comedi_open v.device_fname) v.subdevice v.channel fuel 0 1).state with
    | POLLING => simp [main, hout, hst] at h
    | DONE =>
      simp only [main, hout, hst, hline] at h ⊢
      simp only [Ending.returned.injEq] at h
      exact ⟨h.symm, v, line, rfl, rfl, hcount, hlast, hst, by rw [poll_loop_trace]⟩

/-! ## C6: the end-to-end trace -/

theorem countP_iterations (p : Effect → Bool) (device : Handle) (subdevice channel : Nat)
    (h1 : p (.nanosleep 0 500000) = false)
    (h2 : p (.comedi_dio_read device subdevice channel) = false) (n : Nat) :
    (List.replicate n (iteration_trace device subdevice channel)).flatten.countP p = 0 := by
  induction n with
  | zero => simp
  | succ n ih =>
    simp only [List.replicate_succ, List.flatten_cons, List.countP_append, ih, iteration_trace]
    simp [List.countP_cons, h1, h2]

/-- In every run of main that has ended, the device was closed as many times as
it was opened, and it is never opened twice. -/
theorem main_open_close_balance (w : World) (argv : List CString) (fuel : Nat) :
    ((main w argv fuel).ending ≠ .polling →
      (main w argv fuel).trace.countP Effect.is_close
        = (main w argv fuel).trace.countP Effect.is_open) ∧
    (main w argv fuel).trace.countP Effect.is_open ≤ 1 := by
  obtain ⟨line, hline, -, -⟩ :=
    timestamp_line_total (w.localtime w.gettimeofday.tv_sec) w.gettimeofday.tv_usec
  cases hout : (command_line_parse argv ⟨none, w.subdevice0, w.channel0⟩).outcome with
  | exited err code => simp [main, hout, Effect.is_open, Effect.is_close]
  | fault => simp [main, hout]
  | returned v =>
    have hc := countP_iterations Effect.is_close (w.comedi_open v.device_fname) v.subdevice
      v.channel rfl rfl
    have ho := countP_iterations Effect.is_open (w.comedi_open v.device_fname) v.subdevice
      v.channel rfl rfl
    cases hst : (poll_loop w (w.comedi_open v.device_fname) v.subdevice v.channel fuel 0 1).state with
    | POLLING =>
      simp only [main, hout, hst, poll_loop_trace]
      simp [List.countP_cons, Effect.is_open, ho]
    | DONE =>
      simp only [main, hout, hst, hline, poll_loop_trace]
      simp [List.countP_cons, List.countP_append, Effect.is_open, Effect.is_close, ho, hc]

/-- C6. When the arguments parse to a normal return with outputs `v` and the
reads on the opened handle, the parsed subdevice and the parsed channel store
1 for the first `k` calls and 0 at the next, main (given at least `k + 1`
iterations) performs exactly: one open with the parsed device identifier, then
`k + 1` pairs of a sleep and a read on the parsed subdevice and channel, then
one write to stdout of one line (ending with its only newline), then one close
of the handle the open returned, and returns 0.  In every run of main that has
ended, with any arguments, the handle was closed as often as it was opened, at
most once. -/
theorem main_end_to_end (w : World) (argv : List CString) (v : ParseVars) (k fuel : Nat)
    (hparse : (command_line_parse argv ⟨none, w.subdevice0, w.channel0⟩).outcome
      = .returned v)
    (hhigh : ∀ i, i < k →
      (w.comedi_dio_read i (w.comedi_open v.device_fname) v.subdevice v.channel).bit = some 1)
    (hlow :
      (w.comedi_dio_read k (w.comedi_open v.device_fname) v.subdevice v.channel).bit = some 0)
    (hfuel : k + 1 ≤ fuel) :
    (∃ line, line.count '\n' = 1 ∧ line.getLast? = some '\n' ∧
      main w argv fuel =
        ⟨.comedi_open v.device_fname ::
          (List.replicate (k + 1)
            [Effect.nanosleep 0 500000,
             Effect.comedi_dio_read (w.comedi_open v.device_fname) v.subdevice v.channel]).flatten
          ++ [.stdout line, .comedi_close (w.comedi_open v.device_fname)],
         .returned 0⟩) ∧
    (main w argv fuel).trace.countP Effect.is_open = 1 ∧
    (main w argv fuel).trace.countP Effect.is_stdout = 1 ∧
    (main w argv fuel).trace.countP Effect.is_close = 1 ∧
    (∀ argv2 fuel2, (main w argv2 fuel2).ending ≠ .polling →
      (main w argv2 fuel2).trace.countP Effect.is_close
        = (main w argv2 fuel2).trace.countP Effect.is_open ∧
      (main w argv2 fuel2).trace.countP Effect.is_open ≤ 1) := by
  obtain ⟨line, hline, hcount, hlast⟩ :=
    timestamp_line_total (w.localtime w.gettimeofday.tv_sec) w.gettimeofday.tv_usec
  have hp := poll_loop_low_after w (w.comedi_open v.device_fname) v.subdevice
    v.channel k fuel 0 1 (fun i hi => by simpa using hhigh i hi) (by simpa using hlow) hfuel
  have hmain : main w argv fuel =
      ⟨.comedi_open v.device_fname ::
        (List.replicate (k + 1) (iteration_trace (w.comedi_open v.device_fname)
          v.subdevice v.channel)).flatten
        ++ [.stdout line, .comedi_close (w.comedi_open v.device_fname)], .returned 0⟩ := by
    simp only [main, hparse, hp, hline, iteration_trace]
  have hc := countP_iterations Effect.is_close (w.comedi_open v.device_fname) v.subdevice
    v.channel rfl rfl (k + 1)
  have ho := countP_iterations Effect.is_open (w.comedi_open v.device_fname) v.subdevice
    v.channel rfl rfl (k + 1)
  have hs := countP_iterations Effect.is_stdout (w.comedi_open v.device_fname) v.subdevice
    v.channel rfl rfl (k + 1)
  refine ⟨⟨line, hcount, hlast, hmain⟩, ?_, ?_, ?_, ?_⟩
  · rw [hmain]
    simp [List.countP_cons, List.countP_append, Effect.is_open, ho]
  · rw [hmain]
    simp [List.countP_cons, List.countP_append, Effect.is_stdout, hs]
  · rw [hmain]
    simp [List.countP_cons, List.countP_append, Effect.is_close, hc]
  · intro argv2 fuel2 hne
    exact ⟨(main_open_close_balance w argv2 fuel2).1 hne,
      (main_open_close_balance w argv2 fuel2).2⟩

/-- C6 witness: arguments `-s 0 -c 2 /dev/comedi0` and simulated reads 1, 0. -/
theorem main_end_to_end_witness :
    main (simulated_world [1, 0] 0)
        ["comedi_poll".toList, "-s".toList, "0".toList, "-c".toList, "2".toList,
          "/dev/comedi0".toList] 2 =
      ⟨[.comedi_open (some "/dev/comedi0".toList),
        .nanosleep 0 500000, .comedi_dio_read (some 3) 0 2,
        .nanosleep 0 500000, .comedi_dio_read (some 3) 0 2,
        .stdout "2024-01-02 03:04:05.5000\n".toList,
        .comedi_close (some 3)], .returned 0⟩ ∧
    (main (simulated_world [1, 0] 0)
        ["comedi_poll".toList, "-s".toList, "0".toList, "-c".toList, "2".toList,
          "/dev/comedi0".toList] 2).trace.countP Effect.is_close = 1 := by
  have h := main_end_to_end (simulated_world [1, 0] 0)
    ["comedi_poll".toList, "-s".toList, "0".toList, "-c".toList, "2".toList,
      "/dev/comedi0".toList] ⟨some "/dev/comedi0".toList, 0, 2⟩ 1 2
    (by decide) (by decide) (by decide) (by decide)
  exact ⟨by decide, h.2.2.2.1⟩

/-! ## C7: the device identifier -/

theorem main_trace_head (w : World) (argv : List CString) (fuel : Nat) (v : ParseVars)
    (h : (command_line_parse argv ⟨none, w.subdevice0, w.channel0⟩).outcome = .returned v) :
    (main w argv fuel).trace.head? = some (.comedi_open v.device_fname) := by
  obtain ⟨line, hline, -, -⟩ :=
    timestamp_line_total (w.localtime w.gettimeofday.tv_sec) w.gettimeofday.tv_usec
  cases hst : (poll_loop w (w.comedi_open v.device_fname) v.subdevice v.channel fuel 0 1).state with
  | POLLING => simp [main, h, hst]
  | DONE => simp [main, h, hst, hline]

/-- C7. When command_line_parse returns normally, the device identifier it
produces is the last positional token, and the entry value when there is no
positional token.  Called from main, where the entry value is null, it gives
the last positional token or null, and main's first action is the open call
with exactly that value; with no positional token that is the open call with
null.  Positional tokens never raise an error however many there are: a
further one inserted at any flag-or-positional position leaves the return normal. -/
theorem device_is_last_positional (w : World) (argv : List CString) (v0 v : ParseVars)
    (fuel : Nat) (hparse : (command_line_parse argv v0).outcome = .returned v) :
    v.device_fname = (positional_tokens (argv.drop 1)).getLast?.or v0.device_fname ∧
    (v0 = ⟨none, w.subdevice0, w.channel0⟩ →
      v.device_fname = (positional_tokens (argv.drop 1)).getLast? ∧
      (main w argv fuel).trace.head?
        = some (.comedi_open (positional_tokens (argv.drop 1)).getLast?) ∧
      (positional_tokens (argv.drop 1) = [] →
        v.device_fname = none ∧
        (main w argv fuel).trace.head? = some (.comedi_open none))) ∧
    (∀ prog pre post tok v1, argv = prog :: (pre ++ post) →
      (command_line_parse (prog :: pre) v0).outcome = .returned v1 →
      starts_with_dash tok = false →
      ∃ v2, (command_line_parse (prog :: (pre ++ tok :: post)) v0).outcome = .returned v2 ∧
        v2.device_fname = (positional_tokens (pre ++ tok :: post)).getLast?.or
          v0.device_fname) := by
  have hdev := parse_loop_device (argv.drop 1) 1 v0 v hparse
  refine ⟨hdev, ?_, ?_⟩
  · intro hv0
    subst hv0
    simp only [Option.or_none] at hdev
    have hhead := main_trace_head w argv fuel v hparse
    rw [hdev] at hhead
    refine ⟨hdev, hhead, ?_⟩
    intro hnone
    rw [hnone] at hdev hhead
    exact ⟨hdev, hhead⟩
  · intro prog pre post tok v1 hargv hpre htok
    subst hargv
    rw [command_line_parse_append prog pre post v0 v1 hpre] at hparse
    have hstep : (command_line_parse (prog :: (pre ++ tok :: post)) v0).outcome =
        (parse_loop 2 post { v1 with device_fname := some tok }).outcome := by
      rw [command_line_parse_append prog pre (tok :: post) v0 v1 hpre]
      exact parse_loop_positional 1 tok post v1 htok
    obtain ⟨v2, hv2⟩ := parse_loop_returns_indep post 1 2 v1
      { v1 with device_fname := some tok } v hparse
    have hall : (command_line_parse (prog :: (pre ++ tok :: post)) v0).outcome
        = .returned v2 := by rw [hstep, hv2]
    exact ⟨v2, hall, parse_loop_device _ 1 v0 v2 hall⟩

/-- C7 witness: `a -s 1 b` has the positional tokens `a` and `b`; the device is `b`. -/
theorem device_is_last_positional_witness :
    (⟨some "b".toList, 1, 9⟩ : ParseVars).device_fname =
      (positional_tokens
        (["comedi_poll".toList, "a".toList, "-s".toList, "1".toList, "b".toList].drop 1)).getLast?.or
        (⟨none, 7, 9⟩ : ParseVars).device_fname ∧
    (main (simulated_world [0] 0)
      ["comedi_poll".toList, "a".toList, "-s".toList, "1".toList, "b".toList] 1).trace.head?
        = some (.comedi_open (some "b".toList)) := by
  have h := device_is_last_positional (simulated_world [0] 0)
    ["comedi_poll".toList, "a".toList, "-s".toList, "1".toList, "b".toList]
    ⟨none, 7, 9⟩ ⟨some "b".toList, 1, 9⟩ 1 (by decide)
  exact ⟨h.1, by decide⟩

/-! ## C8: the timestamp line -/

theorem digit_char_mod (d : Nat) : digit_char (d % 10) = digit_char d := by
  simp [digit_char]

theorem print_nat_eq_plain_decimal (n : Nat) : print_nat n = plain_decimal n := by
  unfold plain_decimal
  split_ifs with h
  · subst h; rfl
  · exact print_nat_eq_digits n (by omega)

theorem print_nat_four_digits (y : Nat) (h1 : 1000 ≤ y) (h2 : y ≤ 9999) :
    print_nat y = [digit_char (y / 1000 % 10), digit_char (y / 100 % 10),
      digit_char (y / 10 % 10), digit_char (y % 10)] := by
  rw [print_nat_unfold, if_neg (by omega), print_nat_unfold, if_neg (by omega),
    print_nat_unfold, if_neg (by omega), print_nat_unfold, if_pos (by omega)]
  have e1 : y / 10 / 10 / 10 = y / 1000 := by omega
  have e2 : y / 10 / 10 % 10 = y / 100 % 10 := by omega
  simp [e1, e2, digit_char_mod]

theorem pattern_match_digits1_newline (ds : CString) (hall : ∀ c ∈ ds, c.isDigit = true)
    (hne : ds ≠ []) :
    pattern_match [.digits1, .lit '\n'] (ds ++ ['\n']) = true := by
  have htake : ∀ l : CString, (∀ c ∈ l, c.isDigit = true) →
      (l ++ ['\n']).takeWhile Char.isDigit = l ∧ (l ++ ['\n']).dropWhile Char.isDigit = ['\n'] := by
    intro l
    induction l with
    | nil => intro _; exact ⟨by decide, by decide⟩
    | cons c cs ih =>
      intro h
      have hc := h c (List.mem_cons_self _ _)
      have := ih (fun x hx => h x (List.mem_cons_of_mem _ hx))
      simp [List.takeWhile, List.dropWhile, hc, this]
  obtain ⟨h1, h2⟩ := htake ds hall
  simp only [pattern_match, h1, h2]
  cases ds with
  | nil => exact absurd rfl hne
  | cons c cs => simp

theorem print_int_ofNat (n : Nat) : print_int (n : Int) = print_nat n := by
  unfold print_int
  rw [if_neg (by omega)]
  simp

theorem strftime_four_digit_year (tm : Tm) (y : Nat) (hy : (y : Int) = tm.tm_year + 1900)
    (hy1 : 1000 ≤ y) (hy2 : y ≤ 9999) :
    strftime 30 "%Y-%m-%d %T.".toList tm =
      some (padded_seconds_text y (tm.tm_mon + 1) tm.tm_mday tm.tm_hour tm.tm_min tm.tm_sec) := by
  have e1 := print_02_eq (tm.tm_mon + 1) (by have := tm.tm_mon.isLt; omega)
  have e2 := print_02_fin_eq tm.tm_mday (by decide)
  have e3 := print_02_fin_eq tm.tm_hour (by decide)
  have e4 := print_02_fin_eq tm.tm_min (by decide)
  have e5 := print_02_fin_eq tm.tm_sec (by decide)
  unfold strftime
  rw [strftime_expand_format, ← hy, print_int_ofNat, print_nat_four_digits y hy1 hy2,
    e1, e2, e3, e4, e5]
  rw [if_pos (by simp)]
  simp [padded_seconds_text, digit_char_mod]

/-- C8. For a local time whose year `y` has four digits and a microsecond value
`u` between 0 and 999999: strftime leaves in the 30-byte buffer the 20
characters `YYYY-MM-DD HH:MM:SS.`, every field zero padded; the line is that
text, then the plain decimal representation of `u` (1 to 6 digits, no leading
zero unless `u = 0`; `5000` for 5000 and `0` for 0), then one newline; the line
matches the pattern; and it is the only text a returning run of main writes to
stdout when the clock gives that time. -/
theorem timestamp_line_format (tm : Tm) (y u : Nat) (hy : (y : Int) = tm.tm_year + 1900)
    (hy1 : 1000 ≤ y) (hy2 : y ≤ 9999) (hu : u ≤ 999999) :
    strftime 30 "%Y-%m-%d %T.".toList tm =
      some (padded_seconds_text y (tm.tm_mon + 1) tm.tm_mday tm.tm_hour tm.tm_min tm.tm_sec) ∧
    (padded_seconds_text y (tm.tm_mon + 1) tm.tm_mday tm.tm_hour tm.tm_min tm.tm_sec).length
      = 20 ∧
    timestamp_line tm u =
      some (padded_seconds_text y (tm.tm_mon + 1) tm.tm_mday tm.tm_hour tm.tm_min tm.tm_sec
        ++ plain_decimal u ++ ['\n']) ∧
    (1 ≤ (plain_decimal u).length ∧ (plain_decimal u).length ≤ 6) ∧
    (∀ c ∈ plain_decimal u, c.isDigit = true) ∧
    (0 < u → (plain_decimal u).head? ≠ some '0') ∧
    plain_decimal 5000 = "5000".toList ∧ plain_decimal 0 = "0".toList ∧
    pattern_match timestamp_pattern
      (padded_seconds_text y (tm.tm_mon + 1) tm.tm_mday tm.tm_hour tm.tm_min tm.tm_sec
        ++ plain_decimal u ++ ['\n']) = true ∧
    (∀ (w : World) (argv : List CString) (fuel : Nat) (c : Int) (text : CString),
      w.localtime w.gettimeofday.tv_sec = tm → w.gettimeofday.tv_usec = u →
      (main w argv fuel).ending = .returned c →
      (Effect.stdout text ∈ (main w argv fuel).trace ↔
        text = padded_seconds_text y (tm.tm_mon + 1) tm.tm_mday tm.tm_hour tm.tm_min tm.tm_sec
          ++ plain_decimal u ++ ['\n'])) := by
  have hs := strftime_four_digit_year tm y hy hy1 hy2
  have hline : timestamp_line tm u =
      some (padded_seconds_text y (tm.tm_mon + 1) tm.tm_mday tm.tm_hour tm.tm_min tm.tm_sec
        ++ plain_decimal u ++ ['\n']) := by
    simp only [timestamp_line, hs, Option.map, print_int_ofNat, print_nat_eq_plain_decimal]
  have hne : plain_decimal u ≠ [] := by
    rw [← print_nat_eq_plain_decimal]; exact print_nat_ne_nil u
  have hall : ∀ c ∈ plain_decimal u, c.isDigit = true := by
    rw [← print_nat_eq_plain_decimal]; exact print_nat_all_digits u
  refine ⟨hs, rfl, hline, ⟨?_, ?_⟩, hall, ?_, ?_, ?_, ?_, ?_⟩
  · exact List.length_pos.2 hne
  · rw [← print_nat_eq_plain_decimal]
    exact print_nat_length_le 5 u (by omega)
  · intro h0
    rw [← print_nat_eq_plain_decimal]
    exact print_nat_head_ne_zero u h0
  · rw [← print_nat_eq_plain_decimal]; decide
  · rw [← print_nat_eq_plain_decimal]; decide
  · rw [List.append_assoc]
    simp only [padded_seconds_text, timestamp_pattern, pattern_match, List.cons_append,
      List.nil_append, digit_char_isDigit, beq_self_eq_true, Bool.and_self, Bool.true_and]
    exact pattern_match_digits1_newline _ hall hne
  · intro w argv fuel c text htm htv hret
    obtain ⟨-, v, line, -, hl, -, -, -, htrace⟩ := main_returned w argv fuel c hret
    rw [htm, htv, hline] at hl
    cases hl
    rw [htrace]
    simp [iteration_trace, List.mem_flatten, List.mem_replicate]

/-- C8 witness: 2024-01-02 03:04:05 and 5000 microseconds. -/
theorem timestamp_line_format_witness :
    timestamp_line ⟨5, 4, 3, 2, 0, 124, by decide⟩ ((5000 : Nat) : Int) =
      some (padded_seconds_text 2024 1 2 3 4 5 ++ plain_decimal 5000 ++ ['\n']) ∧
    plain_decimal 5000 = "5000".toList ∧
    pattern_match timestamp_pattern
      (padded_seconds_text 2024 1 2 3 4 5 ++ plain_decimal 5000 ++ ['\n']) = true :=
  have h := timestamp_line_format ⟨5, 4, 3, 2, 0, 124, by decide⟩ 2024 5000 (by decide)
    (by decide) (by decide) (by decide)
  ⟨h.2.2.1, h.2.2.2.2.2.2.1, h.2.2.2.2.2.2.2.2.1⟩

/-! ## C9: exit values -/

/-- Every exit taken inside the parser loop has the value -1; the text on
stderr is the usage text or the unknown-option text of one of the tokens. -/
theorem parse_loop_exited : ∀ (l : List CString) (i : Nat) (v : ParseVars) (err : CString)
    (code : Int), (parse_loop i l v).outcome = .exited err code →
    code = -1 ∧ (err = usage_text ∨ ∃ tok ∈ l, err = unknown_option_text tok) := by
  intro l
  induction l using parse_induction with
  | hnil =>
    intro i v err code h
    simp only [parse_loop] at h
    cases h
  | hstep tok rest ih1 ih2 =>
    intro i v err code h
    have hmono : ∀ (l2 : List CString), (∀ t ∈ l2, t ∈ tok :: rest) →
        (code = -1 ∧ (err = usage_text ∨ ∃ t ∈ l2, err = unknown_option_text t)) →
        code = -1 ∧ (err = usage_text ∨ ∃ t ∈ tok :: rest, err = unknown_option_text t) := by
      intro l2 hsub hres
      refine ⟨hres.1, ?_⟩
      rcases hres.2 with hu | ⟨t, ht, he⟩
      · exact Or.inl hu
      · exact Or.inr ⟨t, hsub t ht, he⟩
    by_cases hd : starts_with_dash tok = true
    · by_cases hs : strncmp_eq tok "-s".toList 2 = true
      · cases rest with
        | nil =>
          rw [parse_loop_flag_s_end i tok v hd hs] at h
          cases h
        | cons a rest1 =>
          rw [parse_loop_flag_s i tok a rest1 v hd hs] at h
          exact hmono rest1 (fun t ht => by simp [ht]) (ih2 a rest1 rfl _ _ _ _ h)
      · simp only [Bool.not_eq_true] at hs
        by_cases hc : strncmp_eq tok "-c".toList 2 = true
        · cases rest with
          | nil =>
            rw [parse_loop_flag_c_end i tok v hd hs hc] at h
            cases h
          | cons a rest1 =>
            rw [parse_loop_flag_c i tok a rest1 v hd hs hc] at h
            exact hmono rest1 (fun t ht => by simp [ht]) (ih2 a rest1 rfl _ _ _ _ h)
        · simp only [Bool.not_eq_true] at hc
          by_cases hh : strncmp_eq tok "-help".toList 5 = true
          · rw [parse_loop_help i tok rest v hd hs hc hh] at h
            simp only [do_usage, ParseOutcome.exited.injEq] at h
            exact ⟨h.2.symm, Or.inl h.1.symm⟩
          · simp only [Bool.not_eq_true] at hh
            rw [parse_loop_unknown i tok rest v hd hs hc hh] at h
            simp only [ParseOutcome.exited.injEq] at h
            exact ⟨h.2.symm, Or.inr ⟨tok, List.mem_cons_self _ _, h.1.symm⟩⟩
    · simp only [Bool.not_eq_true] at hd
      rw [parse_loop_positional i tok rest v hd] at h
      exact hmono rest (fun t ht => by simp [ht]) (ih1 _ _ _ _ h)

/-- C9. do_usage exits with the value -1, and so does every exit of
command_line_parse: the one after the usage text (help path) and the one after
the unknown-option text; every exit of main has the value -1, seen as status
255; the value main returns is 0, and when it returns the timestamp line has
been written to stdout. -/
theorem exit_values (w : World) (argv : List CString) (v0 : ParseVars) (fuel : Nat) :
    do_usage = .exited usage_text (-1) ∧
    (∀ err code, (command_line_parse argv v0).outcome = .exited err code →
      code = -1 ∧ (err = usage_text ∨ ∃ tok ∈ argv.drop 1, err = unknown_option_text tok)) ∧
    exit_status (-1) = 255 ∧
    (∀ code, (main w argv fuel).ending = .exited code →
      code = -1 ∧ exit_status code = 255) ∧
    (∀ c, (main w argv fuel).ending = .returned c →
      c = 0 ∧ exit_status c = 0 ∧
      ∃ line, timestamp_line (w.localtime w.gettimeofday.tv_sec) w.gettimeofday.tv_usec
          = some line ∧
        Effect.stdout line ∈ (main w argv fuel).trace) := by
  refine ⟨rfl, fun err code h => parse_loop_exited _ 1 v0 err code h, by decide, ?_, ?_⟩
  · intro code h
    obtain ⟨line, hline, -, -⟩ :=
      timestamp_line_total (w.localtime w.gettimeofday.tv_sec) w.gettimeofday.tv_usec
    cases hout : (command_line_parse argv ⟨none, w.subdevice0, w.channel0⟩).outcome with
    | exited err code2 =>
      have h1 := (parse_loop_exited _ 1 _ err code2 hout).1
      simp only [main, hout, Ending.exited.injEq] at h
      subst h
      subst h1
      exact ⟨rfl, by decide⟩
    | fault => simp [main, hout] at h
    | returned v =>
      cases hst : (poll_loop w (w.comedi_open v.device_fname) v.subdevice v.channel fuel 0 1).state with
      | POLLING => simp [main, hout, hst] at h
      | DONE => simp [main, hout, hst, hline] at h
  · intro c h
    obtain ⟨hc, v, line, -, hline, -, -, -, htrace⟩ := main_returned w argv fuel c h
    subst hc
    refine ⟨rfl, by decide, line, hline, ?_⟩
    rw [htrace]
    simp

/-- C9 witness: `-help` and `-x` both end the parser with the value -1. -/
theorem exit_values_witness :
    (-1 : Int) = -1 ∧
    ("Unknown option: -x\tTry \x272ac -help\x27\n".toList = usage_text ∨
      ∃ tok ∈ ["comedi_poll".toList, "-x".toList].drop 1,
        "Unknown option: -x\tTry \x272ac -help\x27\n".toList = unknown_option_text tok) :=
  (exit_values (simulated_world [0] 0) ["comedi_poll".toList, "-x".toList] ⟨none, 7, 9⟩ 1).2.1
    "Unknown option: -x\tTry \x272ac -help\x27\n".toList (-1) (by decide)

/-! ## C10: the value token of a numeric flag -/

theorem strncmp_implies_dash (tok : CString) (c : Char)
    (h : strncmp_eq tok ['-', c] 2 = true) : starts_with_dash tok = true := by
  cases tok with
  | nil => simp [strncmp_eq] at h
  | cons a t =>
    cases t with
    | nil => simp [strncmp_eq] at h
    | cons b t2 =>
      simp only [strncmp_eq, List.take, beq_iff_eq, List.cons.injEq] at h
      simp [starts_with_dash, h.1]

theorem strncmp_c_not_s (tok : CString) (h : strncmp_eq tok "-c".toList 2 = true) :
    strncmp_eq tok "-s".toList 2 = false := by
  cases tok with
  | nil => simp [strncmp_eq] at h
  | cons a t =>
    cases t with
    | nil => simp [strncmp_eq] at h
    | cons b t2 =>
      simp only [strncmp_eq, List.take, beq_iff_eq, List.cons.injEq, String.toList] at h
      have hb : b = 'c' := h.2.1
      subst hb
      simp [strncmp_eq]

/-- C10. When the tokens before it parse on their own to a normal return with
outputs `v1`, a token handled as `-s` (as `-c`) consumes the token `val` after
it, whatever its text: the run continues exactly as a parse of the tokens after
`val` entered with the outputs `v1`, in which only the subdevice (the channel)
has been passed through `sscanf`; so `val` is neither examined as a flag nor
stored as the device identifier.  When `val` is not a parseable integer the
outputs are `v1` unchanged.  For `-s -c 3` the result is the device `3`, with
subdevice and channel as on entry. -/
theorem flag_value_consumed (prog flag val : CString) (pre rest : List CString)
    (v0 v1 : ParseVars)
    (hpre : (command_line_parse (prog :: pre) v0).outcome = .returned v1) :
    (strncmp_eq flag "-s".toList 2 = true →
      (command_line_parse (prog :: (pre ++ flag :: val :: rest)) v0).outcome =
        (command_line_parse (prog :: rest)
          { v1 with subdevice := sscanf_i val v1.subdevice }).outcome) ∧
    (strncmp_eq flag "-c".toList 2 = true →
      (command_line_parse (prog :: (pre ++ flag :: val :: rest)) v0).outcome =
        (command_line_parse (prog :: rest)
          { v1 with channel := sscanf_i val v1.channel }).outcome) ∧
    (strncmp_eq flag "-s".toList 2 = true ∨ strncmp_eq flag "-c".toList 2 = true →
      scan_i val = none →
      (command_line_parse (prog :: (pre ++ flag :: val :: rest)) v0).outcome =
        (command_line_parse (prog :: rest) v1).outcome) ∧
    (command_line_parse [prog, "-s".toList, "-c".toList, "3".toList] v0).outcome =
      .returned ⟨some "3".toList, v0.subdevice, v0.channel⟩ := by
  have hS : strncmp_eq flag "-s".toList 2 = true →
      (command_line_parse (prog :: (pre ++ flag :: val :: rest)) v0).outcome =
        (command_line_parse (prog :: rest)
          { v1 with subdevice := sscanf_i val v1.subdevice }).outcome := by
    intro hs
    rw [command_line_parse_append prog pre _ v0 v1 hpre]
    simp only [command_line_parse, List.drop_succ_cons, List.drop_zero]
    rw [parse_loop_flag_s 1 flag val rest v1 (strncmp_implies_dash flag 's' hs) hs]
    exact parse_loop_outcome_index _ _ _ _
  have hC : strncmp_eq flag "-c".toList 2 = true →
      (command_line_parse (prog :: (pre ++ flag :: val :: rest)) v0).outcome =
        (command_line_parse (prog :: rest)
          { v1 with channel := sscanf_i val v1.channel }).outcome := by
    intro hc
    rw [command_line_parse_append prog pre _ v0 v1 hpre]
    simp only [command_line_parse, List.drop_succ_cons, List.drop_zero]
    rw [parse_loop_flag_c 1 flag val rest v1 (strncmp_implies_dash flag 'c' hc)
      (strncmp_c_not_s flag hc) hc]
    exact parse_loop_outcome_index _ _ _ _
  refine ⟨hS, hC, ?_, rfl⟩
  intro hflag hval
  rcases hflag with hs | hc
  · rw [hS hs, sscanf_i_of_fail val _ hval]
  · rw [hC hc, sscanf_i_of_fail val _ hval]

/-- C10 witness: in `/dev/comedi0 -s -c 3` the token `-c` is the value of `-s`. -/
theorem flag_value_consumed_witness :
    (command_line_parse
      ("comedi_poll".toList :: (["/dev/comedi0".toList] ++ "-s".toList :: "-c".toList ::
        ["3".toList])) ⟨none, 7, 9⟩).outcome =
      (command_line_parse ("comedi_poll".toList :: ["3".toList])
        ⟨some "/dev/comedi0".toList, 7, 9⟩).outcome :=
  (flag_value_consumed "comedi_poll".toList "-s".toList "-c".toList ["/dev/comedi0".toList]
    ["3".toList] ⟨none, 7, 9⟩ ⟨some "/dev/comedi0".toList, 7, 9⟩ (by decide)).2.2.1
    (Or.inl (by decide)) (by decide)

/-! ## C11: the status of a read is ignored -/

theorem poll_loop_with_status (w : World) (ret : Nat → Handle → Nat → Nat → Int)
    (device : Handle) (subdevice channel : Nat) (fuel : Nat) :
    ∀ (n out : Nat), poll_loop (w.with_status ret) device subdevice channel fuel n out =
      poll_loop w device subdevice channel fuel n out := by
  induction fuel with
  | zero => intro n out; rfl
  | succ f ih =>
    intro n out
    simp only [poll_loop, ih]
    rfl

/-- The loop started with `out = 1` ends in DONE within `fuel` iterations exactly
when one of the first `fuel` reads leaves a value other than 1 in `out`. -/
theorem poll_loop_done_iff (w : World) (device : Handle) (subdevice channel : Nat)
    (fuel : Nat) :
    ∀ (n : Nat), (poll_loop w device subdevice channel fuel n 1).state = .DONE ↔
      ∃ k, k < fuel ∧ (w.comedi_dio_read (n + k) device subdevice channel).store 1 ≠ 1 := by
  induction fuel with
  | zero => intro n; simp [poll_loop]
  | succ f ih =>
    intro n
    simp only [poll_loop]
    by_cases h : (w.comedi_dio_read n device subdevice channel).store 1 = 1
    · simp only [h, beq_self_eq_true, if_true, PollRun.after, ih]
      constructor
      · rintro ⟨k, hk, hne⟩
        exact ⟨k + 1, by omega, by rwa [show n + (k + 1) = n + 1 + k by omega]⟩
      · rintro ⟨k, hk, hne⟩
        cases k with
        | zero => exact absurd h (by simpa using hne)
        | succ k => exact ⟨k, by omega, by rwa [show n + 1 + k = n + (k + 1) by omega]⟩
    · have hb : ((w.comedi_dio_read n device subdevice channel).store 1 == 1) = false :=
        beq_eq_false_iff_ne.2 h
      simp only [hb, Bool.false_eq_true, if_false, true_iff]
      exact ⟨0, by omega, by simpa using h⟩

theorem main_stdout_iff_done (w : World) (argv : List CString) (fuel : Nat) (v : ParseVars)
    (h : (command_line_parse argv ⟨none, w.subdevice0, w.channel0⟩).outcome = .returned v) :
    (∃ line, Effect.stdout line ∈ (main w argv fuel).trace) ↔
      (poll_loop w (w.comedi_open v.device_fname) v.subdevice v.channel fuel 0 1).state
        = .DONE := by
  obtain ⟨line, hline, -, -⟩ :=
    timestamp_line_total (w.localtime w.gettimeofday.tv_sec) w.gettimeofday.tv_usec
  cases hst : (poll_loop w (w.comedi_open v.device_fname) v.subdevice v.channel fuel 0 1).state with
  | POLLING =>
    simp only [main, h, hst, poll_loop_trace]
    simp [iteration_trace, List.mem_flatten, List.mem_replicate]
  | DONE =>
    simp only [main, h, hst, hline]
    simp

/-- C11. Replacing the status every read returns by any other status, with the
stored sample values kept, changes nothing in the run of main: same actions,
same ending; so a failed read that leaves 0 gives the trace of a successful low
reading.  One iteration entered with any content of `out` ends the loop exactly
when the value left in `out` by the read is not 1, and when the arguments parse
main writes a timestamp exactly when one of the reads allowed by the cap leaves
a value other than 1. -/
theorem read_status_ignored (w : World) (ret : Nat → Handle → Nat → Nat → Int)
    (argv : List CString) (fuel : Nat) (device : Handle) (subdevice channel n out : Nat) :
    main (w.with_status ret) argv fuel = main w argv fuel ∧
    ((w.comedi_dio_read n device subdevice channel).store out ≠ 1 →
      poll_loop w device subdevice channel (fuel + 1) n out =
        ⟨.DONE, (w.comedi_dio_read n device subdevice channel).store out, 1,
          [.nanosleep 0 500000, .comedi_dio_read device subdevice channel]⟩) ∧
    ((w.comedi_dio_read n device subdevice channel).store out = 1 →
      poll_loop w device subdevice channel (fuel + 1) n out =
        (poll_loop w device subdevice channel fuel (n + 1) 1).after device subdevice channel) ∧
    (∀ v, (command_line_parse argv ⟨none, w.subdevice0, w.channel0⟩).outcome = .returned v →
      ((∃ line, Effect.stdout line ∈ (main w argv fuel).trace) ↔
        ∃ k, k < fuel ∧
          (w.comedi_dio_read k (w.comedi_open v.device_fname) v.subdevice v.channel).store 1
            ≠ 1)) := by
  refine ⟨?_, ?_, ?_, ?_⟩
  · simp only [main, poll_loop_with_status]
    rfl
  · intro h
    have hb : ((w.comedi_dio_read n device subdevice channel).store out == 1) = false :=
      beq_eq_false_iff_ne.2 h
    simp only [poll_loop, hb, Bool.false_eq_true, if_false]
    rfl
  · intro h
    simp only [poll_loop, h, beq_self_eq_true, if_true]
  · intro v hv
    rw [main_stdout_iff_done w argv fuel v hv, poll_loop_done_iff]
    simp

/-- C11 witness: a read that fails (status -1) and leaves 0 in `out`, against
the successful low reading of the simulated device. -/
theorem read_status_ignored_witness :
    main ((simulated_world [0] 0).with_status (fun _ _ _ _ => -1))
        ["comedi_poll".toList, "/dev/comedi0".toList] 1 =
      main (simulated_world [0] 0) ["comedi_poll".toList, "/dev/comedi0".toList] 1 ∧
    ((simulated_world [0] 0).with_status (fun _ _ _ _ => -1)).comedi_dio_read 0 (some 3) 7 9
      = ⟨-1, some 0⟩ :=
  ⟨(read_status_ignored (simulated_world [0] 0) (fun _ _ _ _ => -1)
      ["comedi_poll".toList, "/dev/comedi0".toList] 1 (some 3) 7 9 0 1).1, rfl⟩

/-! ## C12: the result of the open call is not checked -/

/-- After a normal return of the parser the first three actions of main are the
open call, the sleep and the read on the handle the open call returned. -/
theorem main_first_actions (w : World) (argv : List CString) (v : ParseVars) (fuel : Nat)
    (hparse : (command_line_parse argv ⟨none, w.subdevice0, w.channel0⟩).outcome
      = .returned v) :
    (main w argv (fuel + 1)).trace.take 3 =
      [.comedi_open v.device_fname, .nanosleep 0 500000,
        .comedi_dio_read (w.comedi_open v.device_fname) v.subdevice v.channel] := by
  obtain ⟨line, hline, -, -⟩ :=
    timestamp_line_total (w.localtime w.gettimeofday.tv_sec) w.gettimeofday.tv_usec
  simp only [main, hparse, poll_loop]
  split_ifs with hb
  · cases hst : (poll_loop w (w.comedi_open v.device_fname) v.subdevice v.channel fuel
        (0 + 1) ((w.comedi_dio_read 0 (w.comedi_open v.device_fname) v.subdevice
          v.channel).store 1)).state with
    | POLLING =>
      simp only [PollRun.after, hst]
      rfl
    | DONE =>
      simp only [PollRun.after, hst, hline]
      rfl
  · simp only [hline]
    rfl

theorem poll_loop_on_handle (w : World) (comedi_open : Option CString → Handle)
    (comedi_dio_read : Nat → Handle → Nat → Nat → DioRead) (d1 d2 : Handle)
    (subdevice channel : Nat)
    (hbit : ∀ k, (comedi_dio_read k d2 subdevice channel).bit
      = (w.comedi_dio_read k d1 subdevice channel).bit) (fuel : Nat) :
    ∀ (n out : Nat),
      poll_loop (w.with_device comedi_open comedi_dio_read) d2 subdevice channel fuel n out =
        ⟨(poll_loop w d1 subdevice channel fuel n out).state,
          (poll_loop w d1 subdevice channel fuel n out).out,
          (poll_loop w d1 subdevice channel fuel n out).reads,
          (poll_loop w d1 subdevice channel fuel n out).trace.map (Effect.on_handle d2)⟩ := by
  induction fuel with
  | zero => intro n out; rfl
  | succ f ih =>
    intro n out
    have hs : ((w.with_device comedi_open comedi_dio_read).comedi_dio_read n d2 subdevice
        channel).store out = (w.comedi_dio_read n d1 subdevice channel).store out := by
      simp only [World.with_device, DioRead.store, hbit]
    simp only [poll_loop, hs, ih]
    split_ifs <;> rfl

/-- C12. After a normal return of the parser main's first three actions are the
open call, the sleep and the read on whatever the open call returned (a null
handle included): the handle is first used by the first read.  A world that
differs in the result of the open call, and in which the reads on the handle
returned there store the same values, gives the same run with that handle in
place of the other: same actions in the same order, same ending. -/
theorem open_result_unchecked (w : World) (argv : List CString) (v : ParseVars) (fuel : Nat)
    (comedi_open : Option CString → Handle)
    (comedi_dio_read : Nat → Handle → Nat → Nat → DioRead)
    (hparse : (command_line_parse argv ⟨none, w.subdevice0, w.channel0⟩).outcome
      = .returned v)
    (hbit : ∀ k, (comedi_dio_read k (comedi_open v.device_fname) v.subdevice v.channel).bit
      = (w.comedi_dio_read k (w.comedi_open v.device_fname) v.subdevice v.channel).bit) :
    (main w argv (fuel + 1)).trace.take 3 =
      [.comedi_open v.device_fname, .nanosleep 0 500000,
        .comedi_dio_read (w.comedi_open v.device_fname) v.subdevice v.channel] ∧
    main (w.with_device comedi_open comedi_dio_read) argv fuel =
      ⟨(main w argv fuel).trace.map (Effect.on_handle (comedi_open v.device_fname)),
        (main w argv fuel).ending⟩ := by
  obtain ⟨line, hline, -, -⟩ :=
    timestamp_line_total (w.localtime w.gettimeofday.tv_sec) w.gettimeofday.tv_usec
  constructor
  · exact main_first_actions w argv v fuel hparse
  · have hp := poll_loop_on_handle w comedi_open comedi_dio_read (w.comedi_open v.device_fname)
      (comedi_open v.device_fname) v.subdevice v.channel hbit fuel 0 1
    have hparse2 : (command_line_parse argv
        ⟨none, (w.with_device comedi_open comedi_dio_read).subdevice0,
          (w.with_device comedi_open comedi_dio_read).channel0⟩).outcome = .returned v := hparse
    have hopen : (w.with_device comedi_open comedi_dio_read).comedi_open = comedi_open := rfl
    have hline2 : timestamp_line
        ((w.with_device comedi_open comedi_dio_read).localtime
          (w.with_device comedi_open comedi_dio_read).gettimeofday.tv_sec)
        (w.with_device comedi_open comedi_dio_read).gettimeofday.tv_usec = some line := hline
    cases hst : (poll_loop w (w.comedi_open v.device_fname) v.subdevice v.channel fuel 0 1).state with
    | POLLING =>
      simp only [main, hparse, hparse2, hopen, hp, hst]
      simp [Effect.on_handle]
    | DONE =>
      simp only [main, hparse, hparse2, hopen, hp, hst, hline, hline2]
      simp [Effect.on_handle]

/-- C12 witness: the open call fails (null handle) instead of returning handle 3. -/
theorem open_result_unchecked_witness :
    (main (simulated_world [1, 0] 0) ["comedi_poll".toList, "/dev/comedi0".toList]
      (1 + 1)).trace.take 3 =
      [.comedi_open (some "/dev/comedi0".toList), .nanosleep 0 500000,
        .comedi_dio_read (some 3) 7 9] ∧
    main ((simulated_world [1, 0] 0).with_device (fun _ => none) (simulated_reads [1, 0] 0))
        ["comedi_poll".toList, "/dev/comedi0".toList] 2 =
      ⟨(main (simulated_world [1, 0] 0) ["comedi_poll".toList, "/dev/comedi0".toList]
          2).trace.map (Effect.on_handle none),
        (main (simulated_world [1, 0] 0) ["comedi_poll".toList, "/dev/comedi0".toList]
          2).ending⟩ :=
  ⟨(open_result_unchecked (simulated_world [1, 0] 0)
      ["comedi_poll".toList, "/dev/comedi0".toList] ⟨some "/dev/comedi0".toList, 7, 9⟩ 1
      (fun _ => none) (simulated_reads [1, 0] 0) (by decide) (fun _ => rfl)).1,
   (open_result_unchecked (simulated_world [1, 0] 0)
      ["comedi_poll".toList, "/dev/comedi0".toList] ⟨some "/dev/comedi0".toList, 7, 9⟩ 2
      (fun _ => none) (simulated_reads [1, 0] 0) (by decide) (fun _ => rfl)).2⟩

/-! ## C13: the `%i` convention -/

theorem hex_char_toNat (d : Nat) (h : d < 16) :
    (hex_char d).toNat = if d < 10 then 48 + d else 87 + d := by
  interval_cases d <;> rfl

theorem digit_value_hex_char (base d : Nat) (hd : d < base) (hb : base ≤ 16) :
    digit_value base (hex_char d) = some d := by
  have h0 : '0'.toNat = 48 := rfl
  have h9 : '9'.toNat = 57 := rfl
  have ha : 'a'.toNat = 97 := rfl
  have hf : 'f'.toNat = 102 := rfl
  have hA : 'A'.toNat = 65 := rfl
  have hF : 'F'.toNat = 70 := rfl
  unfold digit_value
  simp only [hex_char_toNat d (by omega), h0, h9, ha, hf, hA, hF]
  by_cases h10 : d < 10
  · simp only [h10, if_true]
    rw [if_pos (by omega)]
    simp [hd]
  · simp only [h10, if_false]
    rw [if_neg (by omega), if_pos (by omega)]
    simp only [show 87 + d - 97 + 10 = d by omega]
    simp [hd]

theorem scan_digits_text (base : Nat) (hb : base ≤ 16) (ds : List Nat) :
    ∀ (acc : Nat) (seen : Bool), (∀ d ∈ ds, d < base) →
      scan_digits base (digits_text ds) acc seen =
        (ds.foldl (fun a d => a * base + d) acc, seen || !ds.isEmpty) := by
  induction ds with
  | nil => intro acc seen _; simp [digits_text, scan_digits]
  | cons d ds ih =>
    intro acc seen h
    have hd := digit_value_hex_char base d (h d (List.mem_cons_self _ _)) hb
    have := ih (acc * base + d) true (fun x hx => h x (List.mem_cons_of_mem _ hx))
    simp only [digits_text, List.map_cons, scan_digits, hd] at this ⊢
    rw [this]
    simp

theorem foldl_digits_number (base : Nat) (ds : List Nat) :
    ∀ acc, ds.foldl (fun a d => a * base + d) acc =
      acc * base ^ ds.length + digits_number base ds := by
  induction ds with
  | nil => intro acc; simp [digits_number]
  | cons d ds ih =>
    intro acc
    simp only [List.foldl_cons, ih, digits_number, List.reverse_cons, Nat.ofDigits_append,
      Nat.ofDigits_singleton, List.length_reverse, List.length_cons]
    ring

theorem scan_digits_number (base : Nat) (hb : base ≤ 16) (ds : List Nat)
    (h : ∀ d ∈ ds, d < base) :
    scan_digits base (digits_text ds) 0 false = (digits_number base ds, !ds.isEmpty) := by
  rw [scan_digits_text base hb ds 0 false h, foldl_digits_number]
  simp

theorem hex_char_digit_ne (d : Nat) (h : d < 10) (c : Char) (hc : c.isDigit = false) :
    hex_char d ≠ c := by
  intro he
  have h1 : (hex_char d).isDigit = true := by
    unfold hex_char
    rw [if_pos h]
    exact digit_char_isDigit d
  rw [he, hc] at h1
  exact absurd h1 (by decide)

theorem scan_magnitude_octal (t : CString)
    (ht : ∀ x t1, t = x :: t1 → x ≠ 'x' ∧ x ≠ 'X') :
    scan_magnitude ('0' :: t) = some (scan_digits 8 t 0 false).1 := by
  cases t with
  | nil => rfl
  | cons x t1 =>
    obtain ⟨h1, h2⟩ := ht x t1 rfl
    cases t1 with
    | nil => rfl
    | cons h t2 =>
      simp only [scan_magnitude]
      rw [if_neg]
      simp [h1, h2]

theorem scan_magnitude_decimal (c : Char) (t : CString) (h0 : c ≠ '0') :
    scan_magnitude (c :: t) =
      if (scan_digits 10 (c :: t) 0 false).2 then some (scan_digits 10 (c :: t) 0 false).1
      else none := by
  unfold scan_magnitude
  split
  · rename_i heq
    simp only [List.cons.injEq] at heq
    exact absurd heq.1 h0
  · rename_i heq
    simp only [List.cons.injEq] at heq
    exact absurd heq.1 h0
  · rfl

theorem scan_i_unsigned (c : Char) (t : CString) (hsp : isspace c = false) (hm : c ≠ '-')
    (hp : c ≠ '+') :
    scan_i (c :: t) = (scan_magnitude (c :: t)).map (fun m => (m : Int)) := by
  unfold scan_i
  simp only [List.dropWhile, hsp]
  split
  · rename_i heq
    simp only [List.cons.injEq] at heq
    exact absurd heq.1 hm
  · rename_i heq
    simp only [List.cons.injEq] at heq
    exact absurd heq.1 hp
  · rfl

theorem isspace_of_isDigit (c : Char) (h : c.isDigit = true) : isspace c = false := by
  by_contra hs
  simp only [Bool.not_eq_false] at hs
  unfold isspace at hs
  simp only [Bool.or_eq_true, beq_iff_eq] at hs
  rcases hs with ((((hs | hs) | hs) | hs) | hs) | hs <;> subst hs <;> exact absurd h (by decide)

theorem hex_char_isDigit (d : Nat) (h : d < 10) : (hex_char d).isDigit = true := by
  unfold hex_char
  rw [if_pos h]
  exact digit_char_isDigit d

theorem scan_magnitude_decimal_text (ds : List Nat) (hne : ds ≠ [])
    (hlt : ∀ d ∈ ds, d < 10) (hhead : ds.head? ≠ some 0) :
    scan_magnitude (digits_text ds) = some (digits_number 10 ds) := by
  cases ds with
  | nil => exact absurd rfl hne
  | cons d ds1 =>
    have hd : d < 10 := hlt d (List.mem_cons_self _ _)
    have hd0 : 0 < d := by
      rcases Nat.eq_zero_or_pos d with h | h
      · subst h; exact absurd rfl hhead
      · exact h
    have hc : hex_char d ≠ '0' := by
      unfold hex_char
      rw [if_pos hd]
      exact digit_char_ne_zero d hd0 hd
    have hscan := scan_digits_number 10 (by decide) (d :: ds1) hlt
    simp only [digits_text, List.map_cons] at hscan ⊢
    rw [scan_magnitude_decimal _ _ hc, hscan]
    simp

theorem scan_magnitude_octal_text (ds : List Nat) (hlt : ∀ d ∈ ds, d < 8) :
    scan_magnitude ('0' :: digits_text ds) = some (digits_number 8 ds) := by
  rw [scan_magnitude_octal, scan_digits_number 8 (by decide) ds hlt]
  intro x t1 hx
  cases ds with
  | nil => simp [digits_text] at hx
  | cons d ds1 =>
    simp only [digits_text, List.map_cons, List.cons.injEq] at hx
    have hd : d < 10 := by have := hlt d (List.mem_cons_self _ _); omega
    rw [← hx.1]
    exact ⟨hex_char_digit_ne d hd _ (by decide), hex_char_digit_ne d hd _ (by decide)⟩

theorem scan_magnitude_hex_text (ds : List Nat) (hne : ds ≠ []) (hlt : ∀ d ∈ ds, d < 16) :
    scan_magnitude ('0' :: 'x' :: digits_text ds) = some (digits_number 16 ds) := by
  cases ds with
  | nil => exact absurd rfl hne
  | cons d ds1 =>
    have hd := digit_value_hex_char 16 d (hlt d (List.mem_cons_self _ _)) (by decide)
    have hscan := scan_digits_number 16 (by decide) (d :: ds1) hlt
    simp only [digits_text, List.map_cons] at hscan ⊢
    simp only [scan_magnitude, hd, hscan]
    simp

theorem scan_i_plain_decimal (n : Nat) : scan_i (plain_decimal n) = some (n : Int) := by
  rcases Nat.eq_zero_or_pos n with h | h
  · subst h; decide
  · have hds : plain_decimal n = digits_text (Nat.digits 10 n).reverse := by
      unfold plain_decimal digits_text
      rw [if_neg (by omega)]
      apply List.map_congr_left
      intro d hd
      have : d < 10 := Nat.digits_lt_base (by decide) (List.mem_reverse.1 hd)
      simp [hex_char, this]
    have hne : (Nat.digits 10 n).reverse ≠ [] := by
      simpa using Nat.digits_ne_nil_iff_ne_zero.2 (by omega)
    have hlt : ∀ d ∈ (Nat.digits 10 n).reverse, d < 10 := fun d hd =>
      Nat.digits_lt_base (by decide) (List.mem_reverse.1 hd)
    have hhead : (Nat.digits 10 n).reverse.head? ≠ some 0 := by
      rw [List.head?_reverse]
      intro h0
      have hl := Nat.getLast_digit_ne_zero 10 (by omega : n ≠ 0)
      rw [List.getLast?_eq_getLast _ (Nat.digits_ne_nil_iff_ne_zero.2 (by omega))] at h0
      exact hl (Option.some.inj h0)
    have hmag := scan_magnitude_decimal_text _ hne hlt hhead
    have hval : digits_number 10 (Nat.digits 10 n).reverse = n := by
      simp [digits_number, Nat.ofDigits_digits]
    rw [hval] at hmag
    rw [hds]
    cases hl : (Nat.digits 10 n).reverse with
    | nil => exact absurd hl hne
    | cons d ds1 =>
      rw [hl] at hmag hlt
      have hd : d < 10 := hlt d (List.mem_cons_self _ _)
      have hdig := hex_char_isDigit d hd
      simp only [digits_text, List.map_cons] at hmag ⊢
      rw [scan_i_unsigned _ _ (isspace_of_isDigit _ hdig)
        (fun he => by rw [he] at hdig; exact absurd hdig (by decide))
        (fun he => by rw [he] at hdig; exact absurd hdig (by decide)), hmag]
      rfl

/-- C13 counterexample: the token `99999999999999999999` is read by `%i` as
that number, which `strtol` saturates to `LONG_MAX`; the index stored for
`-s` is 4294967295, not the number modulo `2 ^ 32`, which is 1661992959. -/
theorem sscanf_i_modulo_counterexample :
    scan_i "99999999999999999999".toList = some 99999999999999999999 ∧
    sscanf_i "99999999999999999999".toList 5 = 4294967295 ∧
    ((99999999999999999999 : Int) % 4294967296).toNat = 1661992959 ∧
    (command_line_parse
      ["comedi_poll".toList, "-s".toList, "99999999999999999999".toList] ⟨none, 7, 9⟩).outcome
      = .returned ⟨none, 4294967295, 9⟩ := by
  refine ⟨by decide, by decide, by decide, by decide⟩

/-- C13, amended. The value stored for a `-s` or `-c` flag is what `%i` reads in
the value token, saturated to the range of `long` and then reduced modulo
`2 ^ 32`: for a value in the range of `long` it is the value modulo `2 ^ 32`
with no further range check, above `LONG_MAX` it is 4294967295 and below
`LONG_MIN` it is 0.  `%i` reads an optional sign and then a magnitude: the
digits after `0x` as a hexadecimal number, the digits after a leading `0` as
an octal number, digits that do not begin with `0` as a decimal number.  Hence
the plain decimal text of any `N < 2 ^ 31` stores `N`, `010` stores 8, `0x10`
stores 16 and `-1` stores 4294967295. -/
theorem sscanf_i_convention (N old : Nat) (hN : N < 2147483648) :
    sscanf_i (plain_decimal N) old = N ∧
    sscanf_i "010".toList old = 8 ∧
    sscanf_i "0x10".toList old = 16 ∧
    sscanf_i "-1".toList old = 4294967295 ∧
    (∀ s v, scan_i s = some v → -9223372036854775808 ≤ v → v ≤ 9223372036854775807 →
      sscanf_i s old = (v % 4294967296).toNat) ∧
    (∀ s v, scan_i s = some v → 9223372036854775807 < v → sscanf_i s old = 4294967295) ∧
    (∀ s v, scan_i s = some v → v < -9223372036854775808 → sscanf_i s old = 0) ∧
    (∀ prog tok v0,
      (command_line_parse [prog, "-s".toList, tok] v0).outcome =
        .returned { v0 with subdevice := sscanf_i tok v0.subdevice } ∧
      (command_line_parse [prog, "-c".toList, tok] v0).outcome =
        .returned { v0 with channel := sscanf_i tok v0.channel }) ∧
    (∀ t, scan_i ('-' :: t) = (scan_magnitude t).map (fun m => - (m : Int))) ∧
    (∀ t, scan_i ('+' :: t) = (scan_magnitude t).map (fun m => (m : Int))) ∧
    (∀ c t, isspace c = false → c ≠ '-' → c ≠ '+' →
      scan_i (c :: t) = (scan_magnitude (c :: t)).map (fun m => (m : Int))) ∧
    (∀ ds, ds ≠ [] → (∀ d ∈ ds, d < 16) →
      scan_magnitude ('0' :: 'x' :: digits_text ds) = some (digits_number 16 ds)) ∧
    (∀ ds, (∀ d ∈ ds, d < 8) →
      scan_magnitude ('0' :: digits_text ds) = some (digits_number 8 ds)) ∧
    (∀ ds, ds ≠ [] → (∀ d ∈ ds, d < 10) → ds.head? ≠ some 0 →
      scan_magnitude (digits_text ds) = some (digits_number 10 ds)) := by
  have e1 : scan_i "010".toList = some ((8 : Nat) : Int) := by decide
  have e2 : scan_i "0x10".toList = some ((16 : Nat) : Int) := by decide
  have e3 : scan_i "-1".toList = some (-1) := by decide
  refine ⟨?_, ?_, ?_, ?_, ?_, ?_, ?_, ?_, fun t => rfl, fun t => rfl,
    fun c t h1 h2 h3 => scan_i_unsigned c t h1 h2 h3,
    fun ds h1 h2 => scan_magnitude_hex_text ds h1 h2,
    fun ds h => scan_magnitude_octal_text ds h,
    fun ds h1 h2 h3 => scan_magnitude_decimal_text ds h1 h2 h3⟩
  · exact sscanf_i_of_nat _ old N (scan_i_plain_decimal N) (by omega)
  · exact sscanf_i_of_nat _ old 8 e1 (by decide)
  · exact sscanf_i_of_nat _ old 16 e2 (by decide)
  · rw [sscanf_i_of_scan _ old _ e3]; decide
  · intro s v h h1 h2
    rw [sscanf_i_of_scan s old v h, strtol_saturate_of_long v h1 h2]
    rfl
  · intro s v h h1
    rw [sscanf_i_of_scan s old v h]
    have hsat : strtol_saturate v = LONG_MAX := by
      unfold strtol_saturate
      rw [if_pos (show LONG_MAX < v from h1)]
    rw [hsat]
    decide
  · intro s v h h1
    rw [sscanf_i_of_scan s old v h]
    have hsat : strtol_saturate v = LONG_MIN := by
      unfold strtol_saturate
      rw [if_neg (by unfold LONG_MAX; omega), if_pos (show v < LONG_MIN from h1)]
    rw [hsat]
    decide
  · intro prog tok v0
    exact ⟨rfl, rfl⟩

/-- C13 witness: the decimal literal 2147483647, the largest `int`. -/
theorem sscanf_i_convention_witness :
    sscanf_i (plain_decimal 2147483647) 5 = 2147483647 :=
  (sscanf_i_convention 2147483647 5 (by decide)).1

/-! ## C14: the positions of argv that are read -/

theorem parse_loop_positional_run (i : Nat) (tok : CString) (rest : List CString)
    (v : ParseVars) (hd : starts_with_dash tok = false) :
    parse_loop i (tok :: rest) v =
      (parse_loop (i + 1) rest { v with device_fname := some tok }).after [i] := by
  cases rest <;> simp only [parse_loop, hd, Bool.false_eq_true, if_false]

theorem parse_loop_numeric_run (i : Nat) (tok a : CString) (rest : List CString)
    (v : ParseVars) (hd : starts_with_dash tok = true)
    (hsc : (strncmp_eq tok "-s".toList 2 || strncmp_eq tok "-c".toList 2) = true) :
    ∃ v1, parse_loop i (tok :: a :: rest) v = (parse_loop (i + 2) rest v1).after [i, i + 1] := by
  by_cases hs : strncmp_eq tok "-s".toList 2 = true
  · exact ⟨{ v with subdevice := sscanf_i a v.subdevice },
      by simp only [parse_loop, hd, hs, if_true]⟩
  · simp only [Bool.not_eq_true] at hs
    have hc : strncmp_eq tok "-c".toList 2 = true := by
      rw [hs, Bool.false_or] at hsc
      exact hsc
    exact ⟨{ v with channel := sscanf_i a v.channel },
      by simp only [parse_loop, hd, hs, hc, if_true, Bool.false_eq_true, if_false]⟩

theorem parse_loop_numeric_end_run (i : Nat) (tok : CString) (v : ParseVars)
    (hd : starts_with_dash tok = true)
    (hsc : (strncmp_eq tok "-s".toList 2 || strncmp_eq tok "-c".toList 2) = true) :
    parse_loop i [tok] v = ⟨.fault, 1, [i, i + 1]⟩ := by
  by_cases hs : strncmp_eq tok "-s".toList 2 = true
  · simp only [parse_loop, hd, hs, if_true]
  · simp only [Bool.not_eq_true] at hs
    have hc : strncmp_eq tok "-c".toList 2 = true := by
      rw [hs, Bool.false_or] at hsc
      exact hsc
    simp only [parse_loop, hd, hs, hc, if_true, Bool.false_eq_true, if_false]

theorem parse_loop_exit_run (i : Nat) (tok : CString) (rest : List CString) (v : ParseVars)
    (hd : starts_with_dash tok = true)
    (hsc : (strncmp_eq tok "-s".toList 2 || strncmp_eq tok "-c".toList 2) = false) :
    ∃ err, parse_loop i (tok :: rest) v = ⟨.exited err (-1), 1, [i]⟩ := by
  simp only [Bool.or_eq_false_iff] at hsc
  obtain ⟨hs, hc⟩ := hsc
  by_cases hh : strncmp_eq tok "-help".toList 5 = true
  · refine ⟨usage_text, ?_⟩
    cases rest <;>
      simp only [parse_loop, hd, hs, hc, hh, if_true, Bool.false_eq_true, if_false, do_usage]
  · simp only [Bool.not_eq_true] at hh
    refine ⟨unknown_option_text tok, ?_⟩
    cases rest <;>
      simp only [parse_loop, hd, hs, hc, hh, if_true, Bool.false_eq_true, if_false]

theorem flags_have_values_positional (tok : CString) (rest : List CString)
    (hd : starts_with_dash tok = false) :
    flags_have_values (tok :: rest) = flags_have_values rest := by
  cases rest <;> simp only [flags_have_values, hd, Bool.false_eq_true, if_false]

theorem flags_have_values_numeric (tok a : CString) (rest : List CString)
    (hd : starts_with_dash tok = true)
    (hsc : (strncmp_eq tok "-s".toList 2 || strncmp_eq tok "-c".toList 2) = true) :
    flags_have_values (tok :: a :: rest) = flags_have_values rest ∧
    flags_have_values [tok] = false := by
  constructor <;> simp only [flags_have_values, hd, hsc, if_true]

theorem flags_have_values_exit (tok : CString) (rest : List CString)
    (hd : starts_with_dash tok = true)
    (hsc : (strncmp_eq tok "-s".toList 2 || strncmp_eq tok "-c".toList 2) = false) :
    flags_have_values (tok :: rest) = true := by
  cases rest <;> simp only [flags_have_values, hd, hsc, if_true, Bool.false_eq_true, if_false]

/-- Every run of the loop starts at most one iteration per token and reads
positions from `i` up to at most one past the last token. -/
theorem parse_loop_bounds : ∀ (l : List CString) (i : Nat) (v : ParseVars),
    (parse_loop i l v).iterations ≤ l.length ∧
    ∀ j ∈ (parse_loop i l v).indexed, i ≤ j ∧ j ≤ i + l.length := by
  intro l
  induction l using parse_induction with
  | hnil => intro i v; simp [parse_loop]
  | hstep tok rest ih1 ih2 =>
    intro i v
    by_cases hd : starts_with_dash tok = true
    · by_cases hsc : (strncmp_eq tok "-s".toList 2 || strncmp_eq tok "-c".toList 2) = true
      · cases rest with
        | nil =>
          rw [parse_loop_numeric_end_run i tok v hd hsc]
          simp only [List.length_singleton, List.mem_cons, List.mem_nil_iff, or_false]
          exact ⟨le_refl _, fun j hj => by omega⟩
        | cons a rest1 =>
          obtain ⟨v1, hrun⟩ := parse_loop_numeric_run i tok a rest1 v hd hsc
          obtain ⟨h1, h2⟩ := ih2 a rest1 rfl (i + 2) v1
          rw [hrun]
          simp only [ParseRun.after, List.length_cons, List.mem_append, List.mem_cons,
            List.mem_nil_iff, or_false]
          refine ⟨by omega, fun j hj => ?_⟩
          rcases hj with (hj | hj) | hj
          · omega
          · omega
          · have := h2 j hj; omega
      · simp only [Bool.not_eq_true] at hsc
        obtain ⟨err, hrun⟩ := parse_loop_exit_run i tok rest v hd hsc
        rw [hrun]
        simp only [List.length_cons, List.mem_singleton]
        exact ⟨by omega, fun j hj => by omega⟩
    · simp only [Bool.not_eq_true] at hd
      obtain ⟨h1, h2⟩ := ih1 (i + 1) { v with device_fname := some tok }
      rw [parse_loop_positional_run i tok rest v hd]
      simp only [ParseRun.after, List.length_cons, List.mem_append, List.mem_singleton]
      refine ⟨by omega, fun j hj => ?_⟩
      rcases hj with hj | hj
      · omega
      · have := h2 j hj; omega

/-- When every token handled as `-s` or `-c` has a token after it, the run does
not end in the fault and reads no position past the last token. -/
theorem parse_loop_safe : ∀ (l : List CString) (i : Nat) (v : ParseVars),
    flags_have_values l = true →
    (parse_loop i l v).outcome ≠ .fault ∧
    ∀ j ∈ (parse_loop i l v).indexed, j < i + l.length := by
  intro l
  induction l using parse_induction with
  | hnil => intro i v _; simp [parse_loop]
  | hstep tok rest ih1 ih2 =>
    intro i v hv
    by_cases hd : starts_with_dash tok = true
    · by_cases hsc : (strncmp_eq tok "-s".toList 2 || strncmp_eq tok "-c".toList 2) = true
      · cases rest with
        | nil =>
          rw [(flags_have_values_numeric tok tok [] hd hsc).2] at hv
          cases hv
        | cons a rest1 =>
          rw [(flags_have_values_numeric tok a rest1 hd hsc).1] at hv
          obtain ⟨v1, hrun⟩ := parse_loop_numeric_run i tok a rest1 v hd hsc
          obtain ⟨h1, h2⟩ := ih2 a rest1 rfl (i + 2) v1 hv
          rw [hrun]
          simp only [ParseRun.after, List.length_cons, List.mem_append, List.mem_cons,
            List.mem_nil_iff, or_false]
          refine ⟨h1, fun j hj => ?_⟩
          rcases hj with (hj | hj) | hj
          · omega
          · omega
          · have := h2 j hj; omega
      · simp only [Bool.not_eq_true] at hsc
        obtain ⟨err, hrun⟩ := parse_loop_exit_run i tok rest v hd hsc
        rw [hrun]
        simp only [List.length_cons, List.mem_singleton]
        exact ⟨by simp, fun j hj => by omega⟩
    · simp only [Bool.not_eq_true] at hd
      have hv2 : flags_have_values rest = true := by
        rwa [flags_have_values_positional tok rest hd] at hv
      obtain ⟨h1, h2⟩ := ih1 (i + 1) { v with device_fname := some tok } hv2
      rw [parse_loop_positional_run i tok rest v hd]
      simp only [ParseRun.after, List.length_cons, List.mem_append, List.mem_singleton]
      refine ⟨h1, fun j hj => ?_⟩
      rcases hj with hj | hj
      · omega
      · have := h2 j hj; omega

/-- When a token handled as `-s` or `-c` is the last token, the run ends in the
fault and has read the position one past the last token. -/
theorem parse_loop_unsafe : ∀ (l : List CString) (i : Nat) (v : ParseVars),
    flags_have_values l = false →
    (parse_loop i l v).outcome = .fault ∧ i + l.length ∈ (parse_loop i l v).indexed := by
  intro l
  induction l using parse_induction with
  | hnil => intro i v hv; simp [flags_have_values] at hv
  | hstep tok rest ih1 ih2 =>
    intro i v hv
    by_cases hd : starts_with_dash tok = true
    · by_cases hsc : (strncmp_eq tok "-s".toList 2 || strncmp_eq tok "-c".toList 2) = true
      · cases rest with
        | nil =>
          rw [parse_loop_numeric_end_run i tok v hd hsc]
          simp
        | cons a rest1 =>
          rw [(flags_have_values_numeric tok a rest1 hd hsc).1] at hv
          obtain ⟨v1, hrun⟩ := parse_loop_numeric_run i tok a rest1 v hd hsc
          obtain ⟨h1, h2⟩ := ih2 a rest1 rfl (i + 2) v1 hv
          rw [hrun]
          simp only [ParseRun.after, List.length_cons, List.mem_append]
          refine ⟨h1, Or.inr ?_⟩
          rwa [show i + (rest1.length + 1 + 1) = i + 2 + rest1.length by omega]
      · simp only [Bool.not_eq_true] at hsc
        rw [flags_have_values_exit tok rest hd hsc] at hv
        cases hv
    · simp only [Bool.not_eq_true] at hd
      have hv2 : flags_have_values rest = false := by
        rwa [flags_have_values_positional tok rest hd] at hv
      obtain ⟨h1, h2⟩ := ih1 (i + 1) { v with device_fname := some tok } hv2
      rw [parse_loop_positional_run i tok rest v hd]
      simp only [ParseRun.after, List.length_cons, List.mem_append]
      refine ⟨h1, Or.inr ?_⟩
      rwa [show i + (rest.length + 1) = i + 1 + rest.length by omega]

theorem numeric_flag_dash (flag : CString)
    (h : strncmp_eq flag "-s".toList 2 = true ∨ strncmp_eq flag "-c".toList 2 = true) :
    starts_with_dash flag = true ∧
    (strncmp_eq flag "-s".toList 2 || strncmp_eq flag "-c".toList 2) = true := by
  rcases h with h | h
  · exact ⟨strncmp_implies_dash flag 's' h, by rw [h, Bool.true_or]⟩
  · exact ⟨strncmp_implies_dash flag 'c' h, by rw [h, Bool.or_true]⟩

/-- Tokens that parse to a normal return, followed by one last token handled as
`-s` or `-c`: that flag has no value. -/
theorem flags_have_values_dangling : ∀ (pre : List CString) (i : Nat) (v v1 : ParseVars)
    (flag : CString), (parse_loop i pre v).outcome = .returned v1 →
    strncmp_eq flag "-s".toList 2 = true ∨ strncmp_eq flag "-c".toList 2 = true →
    flags_have_values (pre ++ [flag]) = false := by
  intro pre
  induction pre using parse_induction with
  | hnil =>
    intro i v v1 flag _ hflag
    obtain ⟨hd, hsc⟩ := numeric_flag_dash flag hflag
    exact (flags_have_values_numeric flag flag [] hd hsc).2
  | hstep tok rest ih1 ih2 =>
    intro i v v1 flag h hflag
    by_cases hd : starts_with_dash tok = true
    · by_cases hsc : (strncmp_eq tok "-s".toList 2 || strncmp_eq tok "-c".toList 2) = true
      · cases rest with
        | nil =>
          rw [parse_loop_numeric_end_run i tok v hd hsc] at h
          cases h
        | cons a rest1 =>
          obtain ⟨v2, hrun⟩ := parse_loop_numeric_run i tok a rest1 v hd hsc
          rw [hrun] at h
          simp only [List.cons_append]
          rw [(flags_have_values_numeric tok a (rest1 ++ [flag]) hd hsc).1]
          exact ih2 a rest1 rfl (i + 2) v2 v1 flag h hflag
      · simp only [Bool.not_eq_true] at hsc
        obtain ⟨err, hrun⟩ := parse_loop_exit_run i tok rest v hd hsc
        rw [hrun] at h
        cases h
    · simp only [Bool.not_eq_true] at hd
      rw [parse_loop_positional_run i tok rest v hd] at h
      simp only [List.cons_append]
      rw [flags_have_values_positional tok (rest ++ [flag]) hd]
      exact ih1 (i + 1) _ v1 flag h hflag

/-- C14. When every token handled as `-s` or `-c` is followed by at least one
more token, command_line_parse does not hand `argv[argc]` to `sscanf`, every
position of argv it reads lies in `1 .. argc - 1`, and its loop starts at most
`argc - 1` iterations.  When the arguments end with a token handled as `-s` or
`-c` (the tokens before it parse to a normal return), and more generally
whenever some handled flag has no value, the parser reads position `argc`. -/
theorem argv_positions_read (argv : List CString) (v0 : ParseVars)
    (hvals : flags_have_values (argv.drop 1) = true) :
    (command_line_parse argv v0).outcome ≠ .fault ∧
    (∀ j ∈ (command_line_parse argv v0).indexed, 1 ≤ j ∧ j ≤ argv.length - 1) ∧
    (command_line_parse argv v0).iterations ≤ argv.length - 1 ∧
    (∀ (prog flag : CString) (pre : List CString) (v v1 : ParseVars),
      (command_line_parse (prog :: pre) v).outcome = .returned v1 →
      strncmp_eq flag "-s".toList 2 = true ∨ strncmp_eq flag "-c".toList 2 = true →
      (command_line_parse (prog :: (pre ++ [flag])) v).outcome = .fault ∧
      (prog :: (pre ++ [flag])).length ∈
        (command_line_parse (prog :: (pre ++ [flag])) v).indexed) ∧
    (∀ (argv2 : List CString) (v : ParseVars), flags_have_values (argv2.drop 1) = false →
      (command_line_parse argv2 v).outcome = .fault ∧
      argv2.length ∈ (command_line_parse argv2 v).indexed) := by
  have hunsafe : ∀ (argv2 : List CString) (v : ParseVars),
      flags_have_values (argv2.drop 1) = false →
      (command_line_parse argv2 v).outcome = .fault ∧
      argv2.length ∈ (command_line_parse argv2 v).indexed := by
    intro argv2 v h
    cases argv2 with
    | nil => simp [flags_have_values] at h
    | cons p l =>
      simp only [List.drop_succ_cons, List.drop_zero] at h
      have := parse_loop_unsafe l 1 v h
      simp only [command_line_parse, List.drop_succ_cons, List.drop_zero, List.length_cons]
      rwa [show l.length + 1 = 1 + l.length by omega]
  obtain ⟨hs1, hs2⟩ := parse_loop_safe (argv.drop 1) 1 v0 hvals
  obtain ⟨hb1, hb2⟩ := parse_loop_bounds (argv.drop 1) 1 v0
  refine ⟨hs1, ?_, ?_, ?_, hunsafe⟩
  · intro j hj
    have h1 := hs2 j hj
    have h2 := (hb2 j hj).1
    simp only [List.length_drop] at h1
    omega
  · simp only [List.length_drop] at hb1
    exact hb1
  · intro prog flag pre v v1 hpre hflag
    apply hunsafe
    simp only [List.drop_succ_cons, List.drop_zero]
    exact flags_have_values_dangling pre 1 v v1 flag hpre hflag

/-- C14 witness: in `-s 0 /dev/comedi0 -c 2` every flag has its value. -/
theorem argv_positions_read_witness :
    (command_line_parse ["comedi_poll".toList, "-s".toList, "0".toList, "/dev/comedi0".toList,
        "-c".toList, "2".toList] ⟨none, 7, 9⟩).outcome ≠ .fault ∧
    (∀ j ∈ (command_line_parse ["comedi_poll".toList, "-s".toList, "0".toList,
        "/dev/comedi0".toList, "-c".toList, "2".toList] ⟨none, 7, 9⟩).indexed,
      1 ≤ j ∧ j ≤ ["comedi_poll".toList, "-s".toList, "0".toList, "/dev/comedi0".toList,
        "-c".toList, "2".toList].length - 1) ∧
    (command_line_parse ["comedi_poll".toList, "-s".toList, "0".toList, "/dev/comedi0".toList,
        "-c".toList, "2".toList] ⟨none, 7, 9⟩).iterations ≤
      ["comedi_poll".toList, "-s".toList, "0".toList, "/dev/comedi0".toList,
        "-c".toList, "2".toList].length - 1 :=
  have h := argv_positions_read ["comedi_poll".toList, "-s".toList, "0".toList,
    "/dev/comedi0".toList, "-c".toList, "2".toList] ⟨none, 7, 9⟩ (by decide)
  ⟨h.1, h.2.1, h.2.2.1⟩

/-! ## C15: flags are recognized by prefix -/

theorem strncmp_eq_iff_take (tok lit : CString) (n : Nat) :
    strncmp_eq tok lit n = true ↔ tok.take n = lit.take n := by
  simp [strncmp_eq]

theorem take_dash_starts (tok : CString) (c : Char) (h : tok.take 2 = ['-', c]) :
    starts_with_dash tok = true :=
  strncmp_implies_dash tok c ((strncmp_eq_iff_take tok ['-', c] 2).2 h)

theorem take_two_of_help (tok : CString) (h : tok.take 5 = "-help".toList) :
    tok.take 2 = ['-', 'h'] := by
  have h2 : (tok.take 5).take 2 = tok.take 2 := by
    rw [List.take_take]
    rfl
  rw [← h2, h]
  rfl

/-- The run from a token in flag position whose first two characters are `-s`
is the run from the token `-s`. -/
theorem parse_loop_like_s (i : Nat) (tok : CString) (rest : List CString) (v : ParseVars)
    (h : tok.take 2 = "-s".toList) :
    parse_loop i (tok :: rest) v = parse_loop i ("-s".toList :: rest) v := by
  have hd := take_dash_starts tok 's' h
  have hs : strncmp_eq tok "-s".toList 2 = true := (strncmp_eq_iff_take _ _ _).2 h
  have hd0 : starts_with_dash "-s".toList = true := by decide
  have hs0 : strncmp_eq "-s".toList "-s".toList 2 = true := by decide
  cases rest <;> simp only [parse_loop, hd, hs, hd0, hs0, if_true]

/-- The run from a token in flag position whose first two characters are `-c`
is the run from the token `-c`. -/
theorem parse_loop_like_c (i : Nat) (tok : CString) (rest : List CString) (v : ParseVars)
    (h : tok.take 2 = "-c".toList) :
    parse_loop i (tok :: rest) v = parse_loop i ("-c".toList :: rest) v := by
  have hd := take_dash_starts tok 'c' h
  have hc : strncmp_eq tok "-c".toList 2 = true := (strncmp_eq_iff_take _ _ _).2 h
  have hs := strncmp_c_not_s tok hc
  have hd0 : starts_with_dash "-c".toList = true := by decide
  have hs0 : strncmp_eq "-c".toList "-s".toList 2 = false := by decide
  have hc0 : strncmp_eq "-c".toList "-c".toList 2 = true := by decide
  cases rest <;>
    simp only [parse_loop, hd, hs, hc, hd0, hs0, hc0, if_true, Bool.false_eq_true, if_false]

/-- The run from a token in flag position whose first five characters are
`-help` is the run from the token `-help`: do_usage. -/
theorem parse_loop_like_help (i : Nat) (tok : CString) (rest : List CString)
    (v : ParseVars) (h : tok.take 5 = "-help".toList) :
    parse_loop i (tok :: rest) v = parse_loop i ("-help".toList :: rest) v ∧
    parse_loop i (tok :: rest) v = ⟨do_usage, 1, [i]⟩ := by
  have h2 := take_two_of_help tok h
  have hd := take_dash_starts tok 'h' h2
  have hs : strncmp_eq tok "-s".toList 2 = false := by
    unfold strncmp_eq
    rw [h2]
    decide
  have hc : strncmp_eq tok "-c".toList 2 = false := by
    unfold strncmp_eq
    rw [h2]
    decide
  have hh : strncmp_eq tok "-help".toList 5 = true := (strncmp_eq_iff_take _ _ _).2 h
  have hd0 : starts_with_dash "-help".toList = true := by decide
  have hs0 : strncmp_eq "-help".toList "-s".toList 2 = false := by decide
  have hc0 : strncmp_eq "-help".toList "-c".toList 2 = false := by decide
  have hh0 : strncmp_eq "-help".toList "-help".toList 5 = true := by decide
  constructor <;> cases rest <;>
    simp only [parse_loop, hd, hs, hc, hh, hd0, hs0, hc0, hh0, if_true, Bool.false_eq_true,
      if_false]

theorem parse_loop_unknown_run (i : Nat) (tok : CString) (rest : List CString)
    (v : ParseVars) (hd : tok.head? = some '-') (hs : tok.take 2 ≠ "-s".toList)
    (hc : tok.take 2 ≠ "-c".toList) (hh : tok.take 5 ≠ "-help".toList) :
    parse_loop i (tok :: rest) v = ⟨.exited (unknown_option_text tok) (-1), 1, [i]⟩ := by
  have hd1 : starts_with_dash tok = true := by
    cases tok with
    | nil => simp at hd
    | cons c t =>
      simp only [List.head?_cons, Option.some.injEq] at hd
      simp [starts_with_dash, hd]
  have hs1 : strncmp_eq tok "-s".toList 2 = false := by
    rw [← Bool.not_eq_true, strncmp_eq_iff_take]
    exact hs
  have hc1 : strncmp_eq tok "-c".toList 2 = false := by
    rw [← Bool.not_eq_true, strncmp_eq_iff_take]
    exact hc
  have hh1 : strncmp_eq tok "-help".toList 5 = false := by
    rw [← Bool.not_eq_true, strncmp_eq_iff_take]
    exact hh
  cases rest <;>
    simp only [parse_loop, hd1, hs1, hc1, hh1, if_true, Bool.false_eq_true, if_false]

/-- The run of the parser on arguments that share a prefix parsing to a normal
return depends on the run of the loop from the first token after it only. -/
theorem command_line_parse_congr (prog : CString) (pre l1 l2 : List CString)
    (v0 v1 : ParseVars)
    (hpre : (command_line_parse (prog :: pre) v0).outcome = .returned v1)
    (h : ∀ i v, parse_loop i l1 v = parse_loop i l2 v) :
    (command_line_parse (prog :: (pre ++ l1)) v0).outcome =
      (command_line_parse (prog :: (pre ++ l2)) v0).outcome := by
  rw [command_line_parse_append prog pre l1 v0 v1 hpre,
    command_line_parse_append prog pre l2 v0 v1 hpre]
  simp only [command_line_parse, List.drop_succ_cons, List.drop_zero, h]

/-- C15. A token met in flag position (at the head of the loop, or after
tokens that parse to a normal return) is handled by its first characters: when
its first two are `-s` the run is the run with `-s` in its place, when they are
`-c` the run with `-c`, when its first five are `-help` the run with `-help`,
that is do_usage; every other token that begins with `-` takes the
unknown-option exit.  So `-sub` and `-shelp` are handled as `-s`, `-helpme` as
`-help`, and `-h` and `-` are unknown options. -/
theorem flags_by_leading_chars (i : Nat) (tok prog : CString) (pre rest : List CString)
    (v v0 v1 : ParseVars) :
    (tok.take 2 = "-s".toList →
      parse_loop i (tok :: rest) v = parse_loop i ("-s".toList :: rest) v ∧
      ((command_line_parse (prog :: pre) v0).outcome = .returned v1 →
        (command_line_parse (prog :: (pre ++ tok :: rest)) v0).outcome =
          (command_line_parse (prog :: (pre ++ "-s".toList :: rest)) v0).outcome)) ∧
    (tok.take 2 = "-c".toList →
      parse_loop i (tok :: rest) v = parse_loop i ("-c".toList :: rest) v ∧
      ((command_line_parse (prog :: pre) v0).outcome = .returned v1 →
        (command_line_parse (prog :: (pre ++ tok :: rest)) v0).outcome =
          (command_line_parse (prog :: (pre ++ "-c".toList :: rest)) v0).outcome)) ∧
    (tok.take 5 = "-help".toList →
      parse_loop i (tok :: rest) v = parse_loop i ("-help".toList :: rest) v ∧
      parse_loop i (tok :: rest) v = ⟨do_usage, 1, [i]⟩ ∧
      ((command_line_parse (prog :: pre) v0).outcome = .returned v1 →
        (command_line_parse (prog :: (pre ++ tok :: rest)) v0).outcome = do_usage)) ∧
    (tok.head? = some '-' → tok.take 2 ≠ "-s".toList → tok.take 2 ≠ "-c".toList →
      tok.take 5 ≠ "-help".toList →
      parse_loop i (tok :: rest) v = ⟨.exited (unknown_option_text tok) (-1), 1, [i]⟩ ∧
      ((command_line_parse (prog :: pre) v0).outcome = .returned v1 →
        (command_line_parse (prog :: (pre ++ tok :: rest)) v0).outcome =
          .exited (unknown_option_text tok) (-1))) ∧
    parse_loop i ("-sub".toList :: rest) v = parse_loop i ("-s".toList :: rest) v ∧
    parse_loop i ("-shelp".toList :: rest) v = parse_loop i ("-s".toList :: rest) v ∧
    parse_loop i ("-helpme".toList :: rest) v = ⟨do_usage, 1, [i]⟩ ∧
    parse_loop i ("-h".toList :: rest) v =
      ⟨.exited (unknown_option_text "-h".toList) (-1), 1, [i]⟩ ∧
    parse_loop i ("-".toList :: rest) v =
      ⟨.exited (unknown_option_text "-".toList) (-1), 1, [i]⟩ := by
  refine ⟨?_, ?_, ?_, ?_, parse_loop_like_s i _ rest v (by decide),
    parse_loop_like_s i _ rest v (by decide),
    (parse_loop_like_help i _ rest v (by decide)).2,
    parse_loop_unknown_run i _ rest v (by decide) (by decide) (by decide) (by decide),
    parse_loop_unknown_run i _ rest v (by decide) (by decide) (by decide) (by decide)⟩
  · intro h
    exact ⟨parse_loop_like_s i tok rest v h, fun hpre =>
      command_line_parse_congr prog pre _ _ v0 v1 hpre
        (fun j u => parse_loop_like_s j tok rest u h)⟩
  · intro h
    exact ⟨parse_loop_like_c i tok rest v h, fun hpre =>
      command_line_parse_congr prog pre _ _ v0 v1 hpre
        (fun j u => parse_loop_like_c j tok rest u h)⟩
  · intro h
    refine ⟨(parse_loop_like_help i tok rest v h).1, (parse_loop_like_help i tok rest v h).2,
      fun hpre => ?_⟩
    rw [command_line_parse_append prog pre _ v0 v1 hpre]
    simp only [command_line_parse, List.drop_succ_cons, List.drop_zero,
      (parse_loop_like_help 1 tok rest v1 h).2]
  · intro hd hs hc hh
    refine ⟨parse_loop_unknown_run i tok rest v hd hs hc hh, fun hpre => ?_⟩
    rw [command_line_parse_append prog pre _ v0 v1 hpre]
    simp only [command_line_parse, List.drop_succ_cons, List.drop_zero,
      parse_loop_unknown_run 1 tok rest v1 hd hs hc hh]

/-- C15 witness: `/dev/comedi0 -sub 4` is handled as `/dev/comedi0 -s 4`. -/
theorem flags_by_leading_chars_witness :
    (command_line_parse
      ("comedi_poll".toList :: (["/dev/comedi0".toList] ++ "-sub".toList :: ["4".toList]))
      ⟨none, 7, 9⟩).outcome =
    (command_line_parse
      ("comedi_poll".toList :: (["/dev/comedi0".toList] ++ "-s".toList :: ["4".toList]))
      ⟨none, 7, 9⟩).outcome :=
  ((flags_by_leading_chars 1 "-sub".toList "comedi_poll".toList ["/dev/comedi0".toList]
    ["4".toList] ⟨none, 7, 9⟩ ⟨none, 7, 9⟩ ⟨some "/dev/comedi0".toList, 7, 9⟩).1
      (by decide)).2 (by decide)

/-! ## C16: the outputs the parser writes -/

theorem subdevice_values_positional (tok : CString) (rest : List CString)
    (hd : starts_with_dash tok = false) :
    subdevice_values (tok :: rest) = subdevice_values rest ∧
    channel_values (tok :: rest) = channel_values rest := by
  constructor <;> cases rest <;>
    simp only [subdevice_values, channel_values, hd, Bool.false_eq_true, if_false]

/-- On a normal return the subdevice and the channel are the entry values
passed through `sscanf` with each value token of the respective flag, in order. -/
theorem parse_loop_indexes : ∀ (l : List CString) (i : Nat) (v r : ParseVars),
    (parse_loop i l v).outcome = .returned r →
    r.subdevice = (subdevice_values l).foldl (fun acc a => sscanf_i a acc) v.subdevice ∧
    r.channel = (channel_values l).foldl (fun acc a => sscanf_i a acc) v.channel := by
  intro l
  induction l using parse_induction with
  | hnil =>
    intro i v r h
    simp only [parse_loop] at h
    cases h
    simp [subdevice_values, channel_values]
  | hstep tok rest ih1 ih2 =>
    intro i v r h
    by_cases hd : starts_with_dash tok = true
    · by_cases hs : strncmp_eq tok "-s".toList 2 = true
      · cases rest with
        | nil =>
          rw [parse_loop_flag_s_end i tok v hd hs] at h
          cases h
        | cons a rest1 =>
          rw [parse_loop_flag_s i tok a rest1 v hd hs] at h
          have := ih2 a rest1 rfl _ _ _ h
          simp only [subdevice_values, channel_values, hd, hs, if_true, List.foldl_cons]
          exact this
      · simp only [Bool.not_eq_true] at hs
        by_cases hc : strncmp_eq tok "-c".toList 2 = true
        · cases rest with
          | nil =>
            rw [parse_loop_flag_c_end i tok v hd hs hc] at h
            cases h
          | cons a rest1 =>
            rw [parse_loop_flag_c i tok a rest1 v hd hs hc] at h
            have := ih2 a rest1 rfl _ _ _ h
            simp only [subdevice_values, channel_values, hd, hs, hc, if_true,
              Bool.false_eq_true, if_false, List.foldl_cons]
            exact this
        · simp only [Bool.not_eq_true] at hc
          by_cases hh : strncmp_eq tok "-help".toList 5 = true
          · rw [parse_loop_help i tok rest v hd hs hc hh] at h
            cases h
          · simp only [Bool.not_eq_true] at hh
            rw [parse_loop_unknown i tok rest v hd hs hc hh] at h
            cases h
    · simp only [Bool.not_eq_true] at hd
      rw [parse_loop_positional i tok rest v hd] at h
      have := ih1 _ _ _ h
      rw [(subdevice_values_positional tok rest hd).1, (subdevice_values_positional tok rest hd).2]
      exact this

theorem foldl_sscanf_unparseable (vals : List CString) :
    ∀ (x : Nat), (∀ a ∈ vals, scan_i a = none) →
      vals.foldl (fun acc a => sscanf_i a acc) x = x := by
  induction vals with
  | nil => intro x _; rfl
  | cons a t ih =>
    intro x h
    rw [List.foldl_cons, sscanf_i_of_fail a x (h a (List.mem_cons_self _ _))]
    exact ih x (fun b hb => h b (List.mem_cons_of_mem _ hb))

theorem foldl_sscanf_parseable (vals : List CString) :
    ∀ (x y : Nat), (∃ a ∈ vals, scan_i a ≠ none) →
      vals.foldl (fun acc a => sscanf_i a acc) x = vals.foldl (fun acc a => sscanf_i a acc) y := by
  induction vals with
  | nil => intro x y h; obtain ⟨a, ha, -⟩ := h; cases ha
  | cons a t ih =>
    intro x y h
    simp only [List.foldl_cons]
    cases hs : scan_i a with
    | some val => rw [sscanf_i_of_scan a x val hs, sscanf_i_of_scan a y val hs]
    | none =>
      rw [sscanf_i_of_fail a x hs, sscanf_i_of_fail a y hs]
      apply ih
      obtain ⟨b, hb, hne⟩ := h
      rcases List.mem_cons.1 hb with hb | hb
      · subst hb; exact absurd hs hne
      · exact ⟨b, hb, hne⟩

/-- C16. On a normal return of command_line_parse: when no token handled as
`-s` has a parseable value the subdevice is its entry value, when no token
handled as `-c` has one the channel is its entry value, and when there is no
positional token the device identifier is its entry value.  When a token
handled as `-s` and one handled as `-c` have parseable values, subdevice and
channel do not depend on the entry values.  In main the entry values are the
indeterminate contents of the two locals, and the first read is made on the
subdevice and channel the parser leaves: without a parseable `-s` value
(`-c` value) it is made on the indeterminate subdevice (channel). -/
theorem parser_frame (w : World) (argv : List CString) (v0 v : ParseVars) (fuel : Nat)
    (hparse : (command_line_parse argv v0).outcome = .returned v) :
    ((∀ a ∈ subdevice_values (argv.drop 1), scan_i a = none) →
      v.subdevice = v0.subdevice) ∧
    ((∀ a ∈ channel_values (argv.drop 1), scan_i a = none) → v.channel = v0.channel) ∧
    (positional_tokens (argv.drop 1) = [] → v.device_fname = v0.device_fname) ∧
    ((∃ a ∈ subdevice_values (argv.drop 1), scan_i a ≠ none) →
      (∃ a ∈ channel_values (argv.drop 1), scan_i a ≠ none) →
      ∀ v0a va, (command_line_parse argv v0a).outcome = .returned va →
        va.subdevice = v.subdevice ∧ va.channel = v.channel) ∧
    (v0 = ⟨none, w.subdevice0, w.channel0⟩ →
      (main w argv (fuel + 1)).trace.take 3 =
        [.comedi_open v.device_fname, .nanosleep 0 500000,
          .comedi_dio_read (w.comedi_open v.device_fname) v.subdevice v.channel] ∧
      ((∀ a ∈ subdevice_values (argv.drop 1), scan_i a = none) →
        v.subdevice = w.subdevice0) ∧
      ((∀ a ∈ channel_values (argv.drop 1), scan_i a = none) → v.channel = w.channel0)) := by
  obtain ⟨hsub, hchan⟩ := parse_loop_indexes (argv.drop 1) 1 v0 v hparse
  have hdev := parse_loop_device (argv.drop 1) 1 v0 v hparse
  have h1 : (∀ a ∈ subdevice_values (argv.drop 1), scan_i a = none) →
      v.subdevice = v0.subdevice := fun h => by
    rw [hsub, foldl_sscanf_unparseable _ _ h]
  have h2 : (∀ a ∈ channel_values (argv.drop 1), scan_i a = none) →
      v.channel = v0.channel := fun h => by
    rw [hchan, foldl_sscanf_unparseable _ _ h]
  refine ⟨h1, h2, ?_, ?_, ?_⟩
  · intro hnone
    rw [hdev, hnone]
    rfl
  · intro hs hc v0a va ha
    obtain ⟨hsub2, hchan2⟩ := parse_loop_indexes (argv.drop 1) 1 v0a va ha
    rw [hsub, hchan, hsub2, hchan2]
    exact ⟨foldl_sscanf_parseable _ _ _ hs, foldl_sscanf_parseable _ _ _ hc⟩
  · intro hv0
    subst hv0
    exact ⟨main_first_actions w argv v fuel hparse, h1, h2⟩

/-- C16 witness: `-c 2 /dev/comedi0` has no `-s`; the subdevice stays 7, the
content of the uninitialised local in the simulated world. -/
theorem parser_frame_witness :
    (⟨some "/dev/comedi0".toList, 7, 2⟩ : ParseVars).subdevice
      = (⟨none, 7, 9⟩ : ParseVars).subdevice ∧
    (main (simulated_world [0] 0)
        ["comedi_poll".toList, "-c".toList, "2".toList, "/dev/comedi0".toList]
        (0 + 1)).trace.take 3 =
      [.comedi_open (some "/dev/comedi0".toList), .nanosleep 0 500000,
        .comedi_dio_read (some 3) 7 2] :=
  have h := parser_frame (simulated_world [0] 0)
    ["comedi_poll".toList, "-c".toList, "2".toList, "/dev/comedi0".toList]
    ⟨none, 7, 9⟩ ⟨some "/dev/comedi0".toList, 7, 2⟩ 0 (by decide)
  ⟨h.1 (by decide), (h.2.2.2.2 rfl).1⟩

end ComediPoll
